import Mathlib

/-!
A verification development for a SAT-based layout optimizer.

Part 1 embeds the SAT engine (`SATSolver` in `src/sat.js`): CNF clauses
over integer literals, the recursive DPLL search with a shared mutable
assignment array (made explicit as state passing), and its entry point
`solve`.

Part 2 embeds the placement encoder/decoder
(`UnifiedLayoutOptimizer`): selector-variable allocation, the
exactly-one and mutual-exclusion clause generation of `encodeSAT`, the
geometric overlap predicates (over exact rationals, the idealisation of
the JS floating-point arithmetic; `positionsOverlap` is stated
square-free, `sqrt s < d ↔ s < d * d` for the positive thresholds
used), `extractSolution`, and the branch structure of `optimize`.
-/

namespace SatLayout

/-- An assignment models the JS array `assignment` of length
`numVars + 1`: index 0 is unused and `none` models `undefined`.
Out-of-range reads give `undefined`, i.e. `none`, via `getD`. -/
abbrev Assignment := List (Option Bool)

/-- Value of one literal under the current assignment: `undefined` when
the variable `Math.abs(lit)` is unassigned, otherwise
`lit > 0 ? val : !val`. -/
def litVal (a : Assignment) (lit : Int) : Option Bool :=
  match a.getD lit.natAbs none with
  | none => none
  | some v => some (if 0 < lit then v else !v)

/-- The scanning loop of `SATSolver.evalClause`, with the
`hasUndefined` accumulator: returns `some true` at the first literal
currently true, else `none` when an undefined literal was seen,
else `some false`. -/
def evalClauseAux (a : Assignment) : List Int → Bool → Option Bool
  | [], hasUndefined => if hasUndefined then none else some false
  | lit :: rest, hasUndefined =>
    match litVal a lit with
    | none => evalClauseAux a rest true
    | some b => if b then some true else evalClauseAux a rest hasUndefined

/-- `SATSolver.evalClause`. -/
def evalClause (a : Assignment) (c : List Int) : Option Bool :=
  evalClauseAux a c false

/-- The clause-checking loop at the top of `SATSolver.dpll`: `none`
models the `return null` on a violated clause; `some b` models falling
through the loop with `allSatisfied = b`. -/
def checkClauses (a : Assignment) : List (List Int) → Option Bool
  | [] => some true
  | c :: rest =>
    match evalClause a c with
    | some false => none
    | some true => checkClauses a rest
    | none =>
      match checkClauses a rest with
      | none => none
      | some _ => some false

/-- The variable-selection loop of `SATSolver.dpll`: the lowest
`i ∈ [1..numVars]` with `assignment[i] === undefined`, or `none`
(modelling `nextVar === -1`). -/
def findUnassigned (a : Assignment) (n : Nat) : Option Nat :=
  (List.range' 1 n).find? (fun i => (a.getD i none).isNone)

/-- `SATSolver.dpll`, with the shared mutable array made explicit: the
result pairs the JS return value with the state of the array at return
time (the array is mutated in place before each recursive call and
reset to `undefined` on the final failing path).  The `fuel` argument
bounds recursion depth; `solve` supplies `numVars + 1`, which is never
exhausted because every recursive call has strictly fewer unassigned
variables. -/
def dpll (cs : List (List Int)) (n : Nat) : Nat → Assignment → Option Assignment × Assignment
  | 0, a => (none, a)
  | fuel + 1, a =>
    match checkClauses a cs with
    | none => (none, a)
    | some true => (some a, a)
    | some false =>
      match findUnassigned a n with
      | none => (some a, a)
      | some v =>
        match dpll cs n fuel (a.set v (some true)) with
        | (some res, s1) => (some res, s1)
        | (none, s1) =>
          match dpll cs n fuel (s1.set v (some false)) with
          | (some res, s2) => (some res, s2)
          | (none, s2) => (none, s2.set v none)

/-- `new Array(numVars + 1).fill(undefined)`. -/
def initAssignment (n : Nat) : Assignment := List.replicate (n + 1) none

/-- `SATSolver.solve`. -/
def solve (cs : List (List Int)) (n : Nat) : Option Assignment :=
  (dpll cs n (n + 1) (initAssignment n)).1

/-! Semantic notions used to state the properties: truth of a literal
and of a clause under a total boolean assignment (variable `v` is
entry `v - 1`), existence of a model, and the encoder's contract that
every literal names an allocated variable. -/

def litTrueB (bs : List Bool) (l : Int) : Bool :=
  if 0 < l then bs.getD (l.natAbs - 1) false else !(bs.getD (l.natAbs - 1) false)

def clauseSatB (bs : List Bool) (c : List Int) : Bool := c.any (litTrueB bs)

def satisfiable (cs : List (List Int)) (n : Nat) : Prop :=
  ∃ bs : List Bool, bs.length = n ∧ ∀ c ∈ cs, clauseSatB bs c = true

def litsInRange (cs : List (List Int)) (n : Nat) : Prop :=
  ∀ c ∈ cs, ∀ l ∈ c, 1 ≤ l.natAbs ∧ l.natAbs ≤ n

instance (cs : List (List Int)) (n : Nat) : Decidable (litsInRange cs n) := by
  unfold litsInRange
  infer_instance

/-! Auxiliary notions for the proofs: the number of unassigned
variables (the search's termination measure), agreement between a
partial and a total assignment, totalisation of a partial assignment,
and the downward-closed-block predicate on assigned variables. -/

def unassignedCount (a : Assignment) (n : Nat) : Nat :=
  ((List.range' 1 n).filter (fun i => (a.getD i none).isNone)).length

def agreesOn (a : Assignment) (bs : List Bool) (n : Nat) : Prop :=
  ∀ i b, 1 ≤ i → i ≤ n → a.getD i none = some b → bs.getD (i - 1) false = b

/-- The total assignment read off a partial one: unassigned variables
default to `false` (variable `i + 1` is entry `i`). -/
def totalize (a : Assignment) (n : Nat) : List Bool :=
  (List.range n).map (fun i => (a.getD (i + 1) none).getD false)

def assignedUpTo (a : Assignment) (n k : Nat) : Prop :=
  ∀ i, 1 ≤ i → i ≤ n → ((a.getD i none).isSome ↔ i ≤ k)

/-! ### The specification's reference search (§4.1 of the spec):
three-valued clause status via any/all, lowest-indexed unassigned
variable, true tried before false, pure backtracking with no shared
state.  Modelled from the spec's words, to be compared with `dpll`. -/

def specClauseViolated (a : Assignment) (c : List Int) : Bool :=
  c.all (fun l => litVal a l == some false)

def specClauseSat (a : Assignment) (c : List Int) : Bool :=
  c.any (fun l => litVal a l == some true)

def specSelectVar (a : Assignment) (n : Nat) : Option Nat :=
  (List.range' 1 n).find? (fun i => (a.getD i none).isNone)

def specSearch (cs : List (List Int)) (n : Nat) : Nat → Assignment → Option Assignment
  | 0, _ => none
  | fuel + 1, a =>
    if cs.any (specClauseViolated a) then none
    else if cs.all (specClauseSat a) then some a
    else
      match specSelectVar a n with
      | none => some a
      | some v =>
        match specSearch cs n fuel (a.set v (some true)) with
        | some r => some r
        | none => specSearch cs n fuel (a.set v (some false))

def specSolve (cs : List (List Int)) (n : Nat) : Option Assignment :=
  specSearch cs n (n + 1) (initAssignment n)

/-! ## Part 2: the placement encoder/decoder (`UnifiedLayoutOptimizer`)

Candidate generation (force simulation, grid sampling) and the
fallback layout are out-of-scope collaborators of the core: candidate
lists, circles and the fallback's output are inputs here.  Coordinates
are exact rationals, the idealisation of JS floating point. -/

/-- A candidate position (`{x, y, ...}`; the score/angle fields play no
role in the encoder). -/
structure Pos where
  x : ℚ
  y : ℚ
deriving DecidableEq

/-- A fixed circle primitive `{name, x, y, r}` (index and color are
not read by the encoder). -/
structure Circle where
  name : String
  x : ℚ
  y : ℚ
  r : ℚ
deriving DecidableEq

/-- `positionsOverlap`: Euclidean distance below `minDist`.  Stated
square-free: for a nonnegative threshold,
`Math.sqrt (dx*dx + dy*dy) < minDist` holds exactly when
`dx*dx + dy*dy < minDist*minDist`. -/
def positionsOverlap (pos1 pos2 : Pos) (minDist : ℚ) : Bool :=
  decide ((pos1.x - pos2.x) * (pos1.x - pos2.x)
    + (pos1.y - pos2.y) * (pos1.y - pos2.y) < minDist * minDist)

structure Bounds where
  left : ℚ
  right : ℚ
  top : ℚ
  bottom : ℚ

/-- `getTextBounds`: character-box text model (charWidth 10, width
padding 20, height 14 * 1.5; top is `y - height`, bottom `y + 8`). -/
def getTextBounds (text : String) (x y : ℚ) : Bounds :=
  let charWidth : ℚ := 10
  let textWidth : ℚ := (text.length : ℚ) * charWidth + 20
  let textHeight : ℚ := 14 * (3 / 2)
  { left := x - textWidth / 2
    right := x + textWidth / 2
    top := y - textHeight
    bottom := y + 8 }

/-- `labelsOverlap`: the two padded axis-aligned text boxes intersect. -/
def labelsOverlap (pos1 : Pos) (text1 : String) (pos2 : Pos) (text2 : String) : Bool :=
  let bounds1 := getTextBounds text1 pos1.x pos1.y
  let bounds2 := getTextBounds text2 pos2.x pos2.y
  let padding : ℚ := 15
  !(decide (bounds1.right + padding < bounds2.left)
    || decide (bounds2.right + padding < bounds1.left)
    || decide (bounds1.bottom + padding < bounds2.top)
    || decide (bounds2.bottom + padding < bounds1.top))

/-- `labelOverlapsCircle`: the closest point of the label's bounding
box to the circle's centre lies strictly inside the circle. -/
def labelOverlapsCircle (labelPos : Pos) (labelText : String) (circle : Circle) : Bool :=
  let bounds := getTextBounds labelText labelPos.x labelPos.y
  let closestX := max bounds.left (min circle.x bounds.right)
  let closestY := max bounds.top (min circle.y bounds.bottom)
  let dx := closestX - circle.x
  let dy := closestY - circle.y
  decide (dx * dx + dy * dy < circle.r * circle.r)

/-- Total number of `newVar` calls for a family of candidate lists. -/
def candTotal (cands : List (List Pos)) : Nat := (cands.map List.length).sum

/-- Number of variables allocated before entity `i`'s block. -/
def candOffset (cands : List (List Pos)) (i : Nat) : Nat :=
  ((cands.take i).map List.length).sum

/-- Selector variable of organisation `i`, candidate `p`: `encodeSAT`
allocates all org variables first, entity by entity, candidate by
candidate, starting at 1. -/
def orgVar (orgCands : List (List Pos)) (i p : Nat) : Nat :=
  candOffset orgCands i + p + 1

/-- Selector variable of label `i`, candidate `p`: label variables are
allocated after all org variables. -/
def labelVar (orgCands labelCands : List (List Pos)) (i p : Nat) : Nat :=
  candTotal orgCands + candOffset labelCands i + p + 1

/-- `sat.numVars` after `encodeSAT`'s variable allocation. -/
def encodeNumVars (orgCands labelCands : List (List Pos)) : Nat :=
  candTotal orgCands + candTotal labelCands

/-- The positive selector literals of organisation `i`, in allocation
order: the "at least one" clause `sat.addClause(orgVars[i])`. -/
def orgVarsClause (orgCands : List (List Pos)) (i : Nat) : List Int :=
  (List.range ((orgCands.getD i []).length)).map
    (fun p => (orgVar orgCands i p : Int))

def labelVarsClause (orgCands labelCands : List (List Pos)) (i : Nat) : List Int :=
  (List.range ((labelCands.getD i []).length)).map
    (fun p => (labelVar orgCands labelCands i p : Int))

/-- The "at most one" pair clauses `[-vars[p1], -vars[p2]]` for
`p1 < p2`, in loop order. -/
def atMostOne (vs : List Int) : List (List Int) :=
  (List.range vs.length).flatMap (fun p1 =>
    (List.range' (p1 + 1) (vs.length - (p1 + 1))).map
      (fun p2 => [-(vs.getD p1 0), -(vs.getD p2 0)]))

/-- The exactly-one block of one entity; an entity with an empty
candidate list is skipped entirely (`if (orgVars[i].length === 0)
return`). -/
def exactlyOne (vs : List Int) : List (List Int) :=
  if vs.isEmpty then [] else vs :: atMostOne vs

def encodeOrgEO (orgCands : List (List Pos)) : List (List Int) :=
  (List.range orgCands.length).flatMap
    (fun i => exactlyOne (orgVarsClause orgCands i))

/-- The label exactly-one loop is driven by `circles.forEach`, hence by
the number of circles. -/
def encodeLabelEO (orgCands labelCands : List (List Pos)) (numCircles : Nat) :
    List (List Int) :=
  (List.range numCircles).flatMap
    (fun i => exactlyOne (labelVarsClause orgCands labelCands i))

/-- Org-vs-org mutual exclusion, threshold 60. -/
def encodeOrgOverlap (orgCands : List (List Pos)) : List (List Int) :=
  (List.range orgCands.length).flatMap (fun i =>
    (List.range' (i + 1) (orgCands.length - (i + 1))).flatMap (fun j =>
      (List.range ((orgCands.getD i []).length)).flatMap (fun p =>
        (List.range ((orgCands.getD j []).length)).filterMap (fun q =>
          if positionsOverlap ((orgCands.getD i []).getD p ⟨0, 0⟩)
              ((orgCands.getD j []).getD q ⟨0, 0⟩) 60
          then some [-(orgVar orgCands i p : Int), -(orgVar orgCands j q : Int)]
          else none))))

/-- Label-vs-label mutual exclusion (padding 15), driven by the circle
list; the texts are the circle names. -/
def encodeLabelOverlap (orgCands labelCands : List (List Pos))
    (circles : List Circle) : List (List Int) :=
  (List.range circles.length).flatMap (fun i =>
    (List.range' (i + 1) (circles.length - (i + 1))).flatMap (fun j =>
      (List.range ((labelCands.getD i []).length)).flatMap (fun p =>
        (List.range ((labelCands.getD j []).length)).filterMap (fun q =>
          if labelsOverlap ((labelCands.getD i []).getD p ⟨0, 0⟩)
              ((circles.getD i ⟨"", 0, 0, 0⟩).name)
              ((labelCands.getD j []).getD q ⟨0, 0⟩)
              ((circles.getD j ⟨"", 0, 0, 0⟩).name)
          then some [-(labelVar orgCands labelCands i p : Int),
                     -(labelVar orgCands labelCands j q : Int)]
          else none))))

/-- `encodeSAT`'s clause list in emission order.  The final
label-vs-circle constraint block of the source contains no `addClause`
call (its loop body is entirely commented out), so it contributes no
clauses. -/
def encodeSATClauses (orgCands : List (List Pos)) (circles : List Circle)
    (labelCands : List (List Pos)) : List (List Int) :=
  encodeOrgEO orgCands
    ++ encodeLabelEO orgCands labelCands circles.length
    ++ encodeOrgOverlap orgCands
    ++ encodeLabelOverlap orgCands labelCands circles

/-- Decoded output: per organisation and per circle label, the chosen
candidate position, if any selector was true. -/
structure Layout where
  orgPos : List (Option Pos)
  labelPos : List (Option Pos)
deriving DecidableEq

/-- `extractSolution`: for each entity, the first candidate whose
selector variable is `true` in the returned assignment (an entity with
no true selector keeps no position). -/
def extractSolution (solution : Assignment) (orgCands labelCands : List (List Pos))
    (numCircles : Nat) : Layout :=
  { orgPos := (List.range orgCands.length).map (fun i =>
      ((List.range ((orgCands.getD i []).length)).find?
        (fun p => solution.getD (orgVar orgCands i p) none == some true)).map
        (fun p => (orgCands.getD i []).getD p ⟨0, 0⟩))
    labelPos := (List.range numCircles).map (fun i =>
      ((List.range ((labelCands.getD i []).length)).find?
        (fun p =>
          solution.getD (labelVar orgCands labelCands i p) none == some true)).map
        (fun p => (labelCands.getD i []).getD p ⟨0, 0⟩)) }

/-- Which collaborator produced the layout returned by `optimize`. -/
inductive OptimizeResult where
  | fromFallback : Layout → OptimizeResult
  | fromExtract : Layout → OptimizeResult
deriving DecidableEq

/-- The solve-and-branch step of `optimize`: encode, call the solver
once, and hand the result either to `extractSolution` or to the
fallback collaborator (whose output is the `fallback` input). -/
def optimize (orgCands : List (List Pos)) (circles : List Circle)
    (labelCands : List (List Pos)) (fallback : Layout) : OptimizeResult :=
  match solve (encodeSATClauses orgCands circles labelCands)
      (encodeNumVars orgCands labelCands) with
  | none => .fromFallback fallback
  | some a => .fromExtract (extractSolution a orgCands labelCands circles.length)

/-! ### List-access helper lemmas -/

theorem getD_set_ne (a : Assignment) (v w : Nat) (x : Option Bool) (h : v ≠ w) :
    (a.set v x).getD w none = a.getD w none := by
  simp [List.getD_eq_getElem?_getD, List.getElem?_set_ne h]

theorem getD_set_self (a : Assignment) (v : Nat) (x : Option Bool) (h : v < a.length) :
    (a.set v x).getD v none = x := by
  simp [List.getD_eq_getElem?_getD, List.getElem?_set_self h]

theorem set_none_of_getD_none (a : Assignment) (v : Nat) (h : a.getD v none = none) :
    a.set v none = a := by
  induction a generalizing v with
  | nil => rfl
  | cons x xs ih =>
    cases v with
    | zero => simp_all [List.getD]
    | succ w =>
      have := ih w (by simpa [List.getD] using h)
      simp [List.set, this]

theorem mem_range'_one {m s n : Nat} : m ∈ List.range' s n ↔ s ≤ m ∧ m < s + n := by
  rw [List.mem_range']
  constructor
  · rintro ⟨i, hi, rfl⟩; omega
  · rintro ⟨h1, h2⟩; exact ⟨m - s, by omega, by omega⟩

/-! ### Characterisations of `litVal`, `evalClause`, `checkClauses`,
`findUnassigned` -/

theorem litVal_eq_none_iff (a : Assignment) (l : Int) :
    litVal a l = none ↔ a.getD l.natAbs none = none := by
  unfold litVal
  cases a.getD l.natAbs none <;> simp

theorem litVal_pos (a : Assignment) (v : Nat) (b : Bool)
    (hv : a.getD v none = some b) (h1 : 1 ≤ v) : litVal a (v : Int) = some b := by
  have hpos : (0 : Int) < (v : Int) := by exact_mod_cast h1
  unfold litVal
  rw [Int.natAbs_ofNat, hv]
  simp [hpos]

theorem litVal_neg (a : Assignment) (v : Nat) (b : Bool)
    (hv : a.getD v none = some b) (h1 : 1 ≤ v) : litVal a (-(v : Int)) = some (!b) := by
  have hna : (-(v : Int)).natAbs = v := by simp [Int.natAbs_neg]
  have hpos : ¬ (0 : Int) < -(v : Int) := by
    have : (0 : Int) < (v : Int) := by exact_mod_cast h1
    omega
  unfold litVal
  rw [hna, hv]
  simp [hpos]

theorem evalClauseAux_eq_some_true (a : Assignment) (c : List Int) :
    ∀ h : Bool, (evalClauseAux a c h = some true ↔ ∃ l ∈ c, litVal a l = some true) := by
  induction c with
  | nil => intro h; cases h <;> simp [evalClauseAux]
  | cons l rest ih =>
    intro h
    simp only [evalClauseAux]
    cases hl : litVal a l with
    | none => simp [ih, hl]
    | some b =>
      cases b with
      | true => simp [hl]
      | false => simp [ih, hl]

theorem evalClauseAux_eq_some_false (a : Assignment) (c : List Int) :
    ∀ h : Bool,
      (evalClauseAux a c h = some false ↔ h = false ∧ ∀ l ∈ c, litVal a l = some false) := by
  induction c with
  | nil => intro h; cases h <;> simp [evalClauseAux]
  | cons l rest ih =>
    intro h
    simp only [evalClauseAux]
    cases hl : litVal a l with
    | none =>
      simp only [ih, hl]
      constructor
      · rintro ⟨h1, -⟩; exact absurd h1 (by simp)
      · rintro ⟨-, hall⟩
        have := hall l (by simp)
        simp [hl] at this
    | some b =>
      cases b with
      | true =>
        constructor
        · intro h'; simp at h'
        · rintro ⟨-, hall⟩
          have := hall l (by simp)
          rw [hl] at this; simp at this
      | false => simp [ih, hl]

theorem evalClause_eq_some_true (a : Assignment) (c : List Int) :
    evalClause a c = some true ↔ ∃ l ∈ c, litVal a l = some true :=
  evalClauseAux_eq_some_true a c false

theorem evalClause_eq_some_false (a : Assignment) (c : List Int) :
    evalClause a c = some false ↔ ∀ l ∈ c, litVal a l = some false := by
  rw [evalClause, evalClauseAux_eq_some_false]
  simp

theorem evalClauseAux_none_cases (a : Assignment) (c : List Int) :
    ∀ h : Bool, evalClauseAux a c h = none →
      h = true ∨ ∃ l ∈ c, litVal a l = none := by
  induction c with
  | nil => intro h; cases h <;> simp [evalClauseAux]
  | cons l rest ih =>
    intro h hnone
    simp only [evalClauseAux] at hnone
    cases hl : litVal a l with
    | none => exact Or.inr ⟨l, by simp, hl⟩
    | some b =>
      rw [hl] at hnone
      cases b with
      | true => simp at hnone
      | false =>
        simp at hnone
        rcases ih h hnone with h1 | ⟨l', hl', hv⟩
        · exact Or.inl h1
        · exact Or.inr ⟨l', by simp [hl'], hv⟩

theorem evalClause_ne_none (a : Assignment) (c : List Int)
    (hass : ∀ l ∈ c, litVal a l ≠ none) : evalClause a c ≠ none := by
  intro h
  rcases evalClauseAux_none_cases a c false h with h1 | ⟨l, hl, hv⟩
  · simp at h1
  · exact hass l hl hv

theorem checkClauses_eq_none_iff (a : Assignment) (cs : List (List Int)) :
    checkClauses a cs = none ↔ ∃ c ∈ cs, evalClause a c = some false := by
  induction cs with
  | nil => simp [checkClauses]
  | cons c rest ih =>
    cases hc : evalClause a c with
    | none =>
      cases hr : checkClauses a rest with
      | none =>
        have h1 : checkClauses a (c :: rest) = none := by
          simp [checkClauses, hc, hr]
        rw [h1]
        constructor
        · intro _
          rcases ih.mp hr with ⟨c', hc', he⟩
          exact ⟨c', List.mem_cons_of_mem _ hc', he⟩
        · intro _; rfl
      | some b =>
        have h1 : checkClauses a (c :: rest) = some false := by
          simp [checkClauses, hc, hr]
        rw [h1]
        constructor
        · intro h; exact absurd h (by simp)
        · rintro ⟨c', hc', he⟩
          rcases List.mem_cons.mp hc' with rfl | hmem
          · rw [hc] at he; exact absurd he (by simp)
          · have h2 := ih.mpr ⟨c', hmem, he⟩
            rw [hr] at h2; exact absurd h2 (by simp)
    | some b =>
      cases b with
      | false =>
        have h1 : checkClauses a (c :: rest) = none := by
          simp [checkClauses, hc]
        rw [h1]
        constructor
        · intro _; exact ⟨c, by simp, hc⟩
        · intro _; rfl
      | true =>
        have h1 : checkClauses a (c :: rest) = checkClauses a rest := by
          simp [checkClauses, hc]
        rw [h1, ih]
        constructor
        · rintro ⟨c', hc', he⟩; exact ⟨c', List.mem_cons_of_mem _ hc', he⟩
        · rintro ⟨c', hc', he⟩
          rcases List.mem_cons.mp hc' with rfl | hmem
          · rw [hc] at he; exact absurd he (by simp)
          · exact ⟨c', hmem, he⟩

theorem checkClauses_eq_some_true_iff (a : Assignment) (cs : List (List Int)) :
    checkClauses a cs = some true ↔ ∀ c ∈ cs, evalClause a c = some true := by
  induction cs with
  | nil => simp [checkClauses]
  | cons c rest ih =>
    cases hc : evalClause a c with
    | none =>
      have h1 : checkClauses a (c :: rest) ≠ some true := by
        simp only [checkClauses, hc]
        cases hr : checkClauses a rest <;> simp
      constructor
      · intro h; exact absurd h h1
      · intro h; have := h c (by simp); rw [hc] at this; exact absurd this (by simp)
    | some b =>
      cases b with
      | false =>
        have h1 : checkClauses a (c :: rest) = none := by
          simp [checkClauses, hc]
        rw [h1]
        constructor
        · intro h; exact absurd h (by simp)
        · intro h; have := h c (by simp); rw [hc] at this; exact absurd this (by simp)
      | true =>
        have h1 : checkClauses a (c :: rest) = checkClauses a rest := by
          simp [checkClauses, hc]
        rw [h1, ih]
        constructor
        · intro h c' hc'
          rcases List.mem_cons.mp hc' with rfl | hmem
          · exact hc
          · exact h c' hmem
        · intro h c' hc'; exact h c' (List.mem_cons_of_mem _ hc')

theorem checkClauses_some_false_exists_none (a : Assignment) (cs : List (List Int))
    (h : checkClauses a cs = some false) : ∃ c ∈ cs, evalClause a c = none := by
  induction cs with
  | nil => simp [checkClauses] at h
  | cons c rest ih =>
    simp only [checkClauses] at h
    cases hc : evalClause a c with
    | none => exact ⟨c, by simp, hc⟩
    | some b =>
      rw [hc] at h
      cases b with
      | false => simp at h
      | true =>
        rcases ih h with ⟨c', hc', he⟩
        exact ⟨c', by simp [hc'], he⟩

theorem findUnassigned_none (a : Assignment) (n : Nat)
    (h : findUnassigned a n = none) :
    ∀ i, 1 ≤ i → i ≤ n → (a.getD i none).isSome := by
  intro i h1 h2
  have hmem : i ∈ List.range' 1 n := mem_range'_one.mpr ⟨h1, by omega⟩
  have := List.find?_eq_none.mp h i hmem
  cases hg : a.getD i none with
  | none => rw [hg] at this; simp at this
  | some b => simp

theorem findUnassigned_some (a : Assignment) (n v : Nat)
    (h : findUnassigned a n = some v) :
    1 ≤ v ∧ v ≤ n ∧ a.getD v none = none := by
  have hmem := List.mem_of_find?_eq_some h
  have hp := List.find?_some h
  rw [mem_range'_one] at hmem
  refine ⟨hmem.1, by omega, ?_⟩
  cases hg : a.getD v none with
  | none => rfl
  | some b => rw [hg] at hp; simp at hp

/-! ### State restoration: a failing `dpll` call leaves the shared
assignment array exactly as it found it -/

theorem dpll_restore (cs : List (List Int)) (n : Nat) :
    ∀ fuel a, (dpll cs n fuel a).1 = none → (dpll cs n fuel a).2 = a := by
  intro fuel
  induction fuel with
  | zero => intro a _; rfl
  | succ f ih =>
    intro a h
    cases hcc : checkClauses a cs with
    | none => simp [dpll, hcc]
    | some b =>
      cases b with
      | true => simp [dpll, hcc] at h
      | false =>
        cases hfv : findUnassigned a n with
        | none => simp [dpll, hcc, hfv] at h
        | some v =>
          obtain ⟨hv1, hv2, hvn⟩ := findUnassigned_some a n v hfv
          rcases h1 : dpll cs n f (a.set v (some true)) with ⟨r1, s1⟩
          cases r1 with
          | some res => simp [dpll, hcc, hfv, h1] at h
          | none =>
            have e1 : s1 = a.set v (some true) := by
              have := ih (a.set v (some true)) (by rw [h1])
              rw [h1] at this; exact this
            rcases h2 : dpll cs n f (s1.set v (some false)) with ⟨r2, s2⟩
            cases r2 with
            | some res => simp [dpll, hcc, hfv, h1, h2] at h
            | none =>
              have e2 : s2 = s1.set v (some false) := by
                have := ih (s1.set v (some false)) (by rw [h2])
                rw [h2] at this; exact this
              have : (dpll cs n (f + 1) a).2 = s2.set v none := by
                simp [dpll, hcc, hfv, h1, h2]
              rw [this, e2, e1, List.set_set, List.set_set]
              exact set_none_of_getD_none a v hvn

/-! ### Soundness of the search -/

theorem dpll_sound (cs : List (List Int)) (n : Nat) (hin : litsInRange cs n) :
    ∀ fuel a, a.length = n + 1 →
      ∀ r, (dpll cs n fuel a).1 = some r →
        r.length = n + 1 ∧ ∀ c ∈ cs, evalClause r c = some true := by
  intro fuel
  induction fuel with
  | zero => intro a _ r h; simp [dpll] at h
  | succ f ih =>
    intro a hlen r h
    cases hcc : checkClauses a cs with
    | none => simp [dpll, hcc] at h
    | some b =>
      cases b with
      | true =>
        have hra : a = r := by simpa [dpll, hcc] using h
        subst hra
        exact ⟨hlen, (checkClauses_eq_some_true_iff a cs).mp hcc⟩
      | false =>
        cases hfv : findUnassigned a n with
        | none =>
          exfalso
          rcases checkClauses_some_false_exists_none a cs hcc with ⟨c, hcmem, hcnone⟩
          refine evalClause_ne_none a c ?_ hcnone
          intro l hl hnone
          rw [litVal_eq_none_iff] at hnone
          obtain ⟨hl1, hl2⟩ := hin c hcmem l hl
          have := findUnassigned_none a n hfv l.natAbs hl1 hl2
          rw [hnone] at this; simp at this
        | some v =>
          rcases h1 : dpll cs n f (a.set v (some true)) with ⟨r1, s1⟩
          cases r1 with
          | some res =>
            have hr : res = r := by simpa [dpll, hcc, hfv, h1] using h
            subst hr
            exact ih (a.set v (some true)) (by simp [hlen]) res (by rw [h1])
          | none =>
            have e1 : s1 = a.set v (some true) := by
              have := dpll_restore cs n f (a.set v (some true)) (by rw [h1])
              rw [h1] at this; exact this
            rcases h2 : dpll cs n f (s1.set v (some false)) with ⟨r2, s2⟩
            cases r2 with
            | some res =>
              have hr : res = r := by simpa [dpll, hcc, hfv, h1, h2] using h
              subst hr
              exact ih (s1.set v (some false)) (by simp [e1, hlen]) res (by rw [h2])
            | none => simp [dpll, hcc, hfv, h1, h2] at h

/-! ### Completeness machinery: counting unassigned variables, models
over total assignments, agreement between partial and total
assignments -/

theorem filter_cons_length_pos {p : Nat → Bool} {x : Nat} {xs : List Nat}
    (h : p x = true) : ((x :: xs).filter p).length = (xs.filter p).length + 1 := by
  simp [List.filter_cons, h]

theorem filter_cons_length_neg {p : Nat → Bool} {x : Nat} {xs : List Nat}
    (h : p x = false) : ((x :: xs).filter p).length = (xs.filter p).length := by
  simp [List.filter_cons, h]

theorem filter_length_set (a : Assignment) (b : Bool) (v : Nat)
    (hu : a.getD v none = none) (hlen : v < a.length) :
    ∀ l : List Nat, l.Nodup → v ∈ l →
      (l.filter (fun i => (a.getD i none).isNone)).length
        = (l.filter (fun i => ((a.set v (some b)).getD i none).isNone)).length + 1 := by
  intro l
  induction l with
  | nil => intro _ hv; simp at hv
  | cons x xs ih =>
    intro hnd hv
    rcases List.mem_cons.mp hv with rfl | hmem
    · have hxs : v ∉ xs := (List.nodup_cons.mp hnd).1
      have hpx : (a.getD v none).isNone = true := by rw [hu]; rfl
      have hpx' : ((a.set v (some b)).getD v none).isNone = false := by
        rw [getD_set_self a v (some b) hlen]; rfl
      have hsame : xs.filter (fun i => ((a.set v (some b)).getD i none).isNone)
           = xs.filter (fun i => (a.getD i none).isNone) := by
        apply List.filter_congr
        intro i hi
        have hne : v ≠ i := fun e => hxs (e ▸ hi)
        rw [getD_set_ne a v i (some b) hne]
      rw [filter_cons_length_pos hpx, filter_cons_length_neg hpx', hsame]
    · have hnx : x ≠ v := fun e => (List.nodup_cons.mp hnd).1 (e ▸ hmem)
      have hpe : ((a.set v (some b)).getD x none).isNone = (a.getD x none).isNone := by
        rw [getD_set_ne a v x (some b) (fun e => hnx e.symm)]
      have ihx := ih (List.nodup_cons.mp hnd).2 hmem
      cases hx : (a.getD x none).isNone with
      | true =>
        rw [filter_cons_length_pos hx, filter_cons_length_pos (by rw [hpe, hx]), ihx]
      | false =>
        rw [filter_cons_length_neg hx, filter_cons_length_neg (by rw [hpe, hx]), ihx]

theorem unassignedCount_set (a : Assignment) (n v : Nat) (b : Bool)
    (hv1 : 1 ≤ v) (hv2 : v ≤ n) (hu : a.getD v none = none) (hlen : v < a.length) :
    unassignedCount a n = unassignedCount (a.set v (some b)) n + 1 :=
  filter_length_set a b v hu hlen (List.range' 1 n) (List.nodup_range' 1 n)
    (mem_range'_one.mpr ⟨hv1, by omega⟩)

theorem litTrueB_of_litVal (a : Assignment) (bs : List Bool) (n : Nat)
    (hag : agreesOn a bs n) (l : Int)
    (h1 : 1 ≤ l.natAbs) (h2 : l.natAbs ≤ n) (b : Bool)
    (hv : litVal a l = some b) : litTrueB bs l = b := by
  unfold litVal at hv
  cases hg : a.getD l.natAbs none with
  | none => rw [hg] at hv; simp at hv
  | some w =>
    rw [hg] at hv; simp at hv
    have hb := hag l.natAbs w h1 h2 hg
    unfold litTrueB
    rw [hb]
    exact hv

/-! ### Completeness of the search -/

theorem dpll_complete (cs : List (List Int)) (n : Nat) (hin : litsInRange cs n)
    (bs : List Bool) (hmodel : ∀ c ∈ cs, clauseSatB bs c = true) :
    ∀ fuel a, unassignedCount a n < fuel → a.length = n + 1 → agreesOn a bs n →
      (dpll cs n fuel a).1 ≠ none := by
  intro fuel
  induction fuel with
  | zero => intro a hcnt; omega
  | succ f ih =>
    intro a hcnt hlen hag h
    cases hcc : checkClauses a cs with
    | none =>
      rcases (checkClauses_eq_none_iff a cs).mp hcc with ⟨c, hcm, hce⟩
      have hall := (evalClause_eq_some_false a c).mp hce
      have hfalse : clauseSatB bs c = false := by
        unfold clauseSatB
        rw [List.any_eq_false]
        intro l hl
        obtain ⟨hl1, hl2⟩ := hin c hcm l hl
        have := litTrueB_of_litVal a bs n hag l hl1 hl2 false (hall l hl)
        simp [this]
      rw [hmodel c hcm] at hfalse; simp at hfalse
    | some b =>
      cases b with
      | true => simp [dpll, hcc] at h
      | false =>
        cases hfv : findUnassigned a n with
        | none => simp [dpll, hcc, hfv] at h
        | some v =>
          obtain ⟨hv1, hv2, hvn⟩ := findUnassigned_some a n v hfv
          have hvlen : v < a.length := by omega
          have hagset : ∀ b' : Bool, bs.getD (v - 1) false = b' →
              agreesOn (a.set v (some b')) bs n := by
            intro b' hb' i bb h1 h2 hget
            by_cases hiv : i = v
            · subst hiv
              rw [getD_set_self a i (some b') (by omega)] at hget
              injection hget with e; exact e ▸ hb'
            · rw [getD_set_ne a v i _ (fun e => hiv e.symm)] at hget
              exact hag i bb h1 h2 hget
          have hcntT : unassignedCount (a.set v (some true)) n < f := by
            have := unassignedCount_set a n v true hv1 hv2 hvn hvlen; omega
          have hcntF : unassignedCount (a.set v (some false)) n < f := by
            have := unassignedCount_set a n v false hv1 hv2 hvn hvlen; omega
          rcases h1 : dpll cs n f (a.set v (some true)) with ⟨r1, s1⟩
          cases r1 with
          | some res => simp [dpll, hcc, hfv, h1] at h
          | none =>
            have e1 : s1 = a.set v (some true) := by
              have := dpll_restore cs n f (a.set v (some true)) (by rw [h1])
              rw [h1] at this; exact this
            rcases h2 : dpll cs n f (s1.set v (some false)) with ⟨r2, s2⟩
            cases r2 with
            | some res => simp [dpll, hcc, hfv, h1, h2] at h
            | none =>
              cases hbv : bs.getD (v - 1) false with
              | true =>
                have := ih (a.set v (some true)) hcntT (by simp [hlen])
                  (hagset true hbv)
                rw [h1] at this; exact this rfl
              | false =>
                have e2arg : s1.set v (some false) = a.set v (some false) := by
                  rw [e1, List.set_set]
                have := ih (a.set v (some false)) hcntF (by simp [hlen])
                  (hagset false hbv)
                rw [← e2arg, h2] at this; exact this rfl

/-! ### `solve`-level soundness and completeness -/

theorem length_initAssignment (n : Nat) : (initAssignment n).length = n + 1 := by
  simp [initAssignment]

theorem getD_initAssignment (n i : Nat) : (initAssignment n).getD i none = none := by
  simp only [initAssignment, List.getD_eq_getElem?_getD, List.getElem?_replicate]
  by_cases h : i < n + 1 <;> simp [h]

theorem unassignedCount_init (n : Nat) : unassignedCount (initAssignment n) n = n := by
  unfold unassignedCount
  have : (List.range' 1 n).filter (fun i => ((initAssignment n).getD i none).isNone)
      = List.range' 1 n := by
    apply List.filter_eq_self.mpr
    intro i _
    rw [getD_initAssignment]; rfl
  rw [this, List.length_range']

theorem solve_sound (cs : List (List Int)) (n : Nat) (hin : litsInRange cs n)
    (a : Assignment) (h : solve cs n = some a) :
    a.length = n + 1 ∧ ∀ c ∈ cs, evalClause a c = some true :=
  dpll_sound cs n hin (n + 1) (initAssignment n) (length_initAssignment n) a h

theorem solve_ne_none_of_model (cs : List (List Int)) (n : Nat) (hin : litsInRange cs n)
    (hsat : satisfiable cs n) : solve cs n ≠ none := by
  rcases hsat with ⟨bs, _, hmodel⟩
  refine dpll_complete cs n hin bs hmodel (n + 1) (initAssignment n) ?_
    (length_initAssignment n) ?_
  · rw [unassignedCount_init]; omega
  · intro i b _ _ hget
    rw [getD_initAssignment] at hget
    exact absurd hget (by simp)

theorem length_totalize (a : Assignment) (n : Nat) : (totalize a n).length = n := by
  simp [totalize]

theorem agreesOn_totalize (a : Assignment) (n : Nat) : agreesOn a (totalize a n) n := by
  intro i b h1 h2 hget
  have hi : i - 1 < n := by omega
  have : (totalize a n).getD (i - 1) false = (a.getD (i - 1 + 1) none).getD false := by
    simp only [totalize, List.getD_eq_getElem?_getD, List.getElem?_map,
      List.getElem?_range hi]
    rfl
  rw [this, show i - 1 + 1 = i by omega, hget]
  rfl

theorem satisfiable_of_solve_some (cs : List (List Int)) (n : Nat)
    (hin : litsInRange cs n) (a : Assignment) (h : solve cs n = some a) :
    satisfiable cs n := by
  obtain ⟨-, hcl⟩ := solve_sound cs n hin a h
  refine ⟨totalize a n, length_totalize a n, ?_⟩
  intro c hc
  rcases (evalClause_eq_some_true a c).mp (hcl c hc) with ⟨l, hl, hv⟩
  obtain ⟨hl1, hl2⟩ := hin c hc l hl
  have := litTrueB_of_litVal a (totalize a n) n (agreesOn_totalize a n) l hl1 hl2 true hv
  unfold clauseSatB
  rw [List.any_eq_true]
  exact ⟨l, hl, by rw [this]⟩

/-! ### The assigned variables always form a downward-closed block
`1..k`: the search assigns variables in increasing order and un-assigns
them in stack order -/

theorem findUnassigned_of_upTo_lt (a : Assignment) (n k : Nat) (hk : k < n)
    (h : assignedUpTo a n k) : findUnassigned a n = some (k + 1) := by
  unfold findUnassigned
  have hsplit : List.range' 1 n = List.range' 1 k ++ List.range' (1 + k) (n - k) := by
    rw [List.range'_append_1]
    congr 1
    omega
  rw [hsplit, List.find?_append]
  have h1 : (List.range' 1 k).find? (fun i => (a.getD i none).isNone) = none := by
    rw [List.find?_eq_none]
    intro x hx
    rw [mem_range'_one] at hx
    have hs := (h x (by omega) (by omega)).mpr (by omega)
    intro hcon
    simp only [Option.isNone_iff_eq_none] at hcon
    rw [hcon] at hs
    simp at hs
  rw [h1, Option.none_or]
  have h2 : List.range' (1 + k) (n - k) = (k + 1) :: List.range' (1 + k + 1) (n - k - 1) := by
    have e : n - k = (n - k - 1) + 1 := by omega
    rw [e, List.range'_succ, Nat.add_comm 1 k]
    simp
  rw [h2]
  have h3 : (a.getD (k + 1) none).isNone = true := by
    cases hg : a.getD (k + 1) none with
    | none => rfl
    | some b =>
      have hs := (h (k + 1) (by omega) (by omega)).mp (by rw [hg]; rfl)
      omega
  exact List.find?_cons_of_pos _ h3

theorem findUnassigned_of_upTo_full (a : Assignment) (n : Nat)
    (h : assignedUpTo a n n) : findUnassigned a n = none := by
  rw [findUnassigned, List.find?_eq_none]
  intro x hx
  rw [mem_range'_one] at hx
  have hs := (h x (by omega) (by omega)).mpr (by omega)
  intro hcon
  simp only [Option.isNone_iff_eq_none] at hcon
  rw [hcon] at hs
  simp at hs

theorem assignedUpTo_set (a : Assignment) (n k : Nat) (hk : k < n) (b : Bool)
    (hlen : a.length = n + 1) (h : assignedUpTo a n k) :
    assignedUpTo (a.set (k + 1) (some b)) n (k + 1) := by
  intro i h1 h2
  by_cases hik : i = k + 1
  · subst hik
    rw [getD_set_self a (k + 1) (some b) (by omega)]
    simp
  · rw [getD_set_ne a (k + 1) i (some b) (fun e => hik e.symm)]
    rw [h i h1 h2]
    omega

theorem dpll_upTo (cs : List (List Int)) (n : Nat) :
    ∀ fuel a k, a.length = n + 1 → k ≤ n → assignedUpTo a n k →
      ∀ r, (dpll cs n fuel a).1 = some r →
        r.length = n + 1 ∧ ∃ m, m ≤ n ∧ assignedUpTo r n m := by
  intro fuel
  induction fuel with
  | zero => intro a k _ _ _ r h; simp [dpll] at h
  | succ f ih =>
    intro a k hlen hk hup r h
    cases hcc : checkClauses a cs with
    | none => simp [dpll, hcc] at h
    | some b =>
      cases b with
      | true =>
        have hra : a = r := by simpa [dpll, hcc] using h
        subst hra
        exact ⟨hlen, k, hk, hup⟩
      | false =>
        cases hfv : findUnassigned a n with
        | none =>
          have hra : a = r := by simpa [dpll, hcc, hfv] using h
          subst hra
          exact ⟨hlen, k, hk, hup⟩
        | some v =>
          have hkn : k < n := by
            by_contra hge
            have hupn : assignedUpTo a n n := by
              have hkeq : k = n := by omega
              exact hkeq ▸ hup
            rw [findUnassigned_of_upTo_full a n hupn] at hfv
            exact absurd hfv (by simp)
          have hv : v = k + 1 := by
            rw [findUnassigned_of_upTo_lt a n k hkn hup] at hfv
            injection hfv with e
            exact e.symm
          subst hv
          rcases h1 : dpll cs n f (a.set (k + 1) (some true)) with ⟨r1, s1⟩
          cases r1 with
          | some res =>
            have hr : res = r := by simpa [dpll, hcc, hfv, h1] using h
            subst hr
            exact ih (a.set (k + 1) (some true)) (k + 1) (by simp [hlen]) (by omega)
              (assignedUpTo_set a n k hkn true hlen hup) res (by rw [h1])
          | none =>
            have e1 : s1 = a.set (k + 1) (some true) := by
              have := dpll_restore cs n f (a.set (k + 1) (some true)) (by rw [h1])
              rw [h1] at this; exact this
            rcases h2 : dpll cs n f (s1.set (k + 1) (some false)) with ⟨r2, s2⟩
            cases r2 with
            | some res =>
              have hr : res = r := by simpa [dpll, hcc, hfv, h1, h2] using h
              subst hr
              have e2 : s1.set (k + 1) (some false) = a.set (k + 1) (some false) := by
                rw [e1, List.set_set]
              exact ih (a.set (k + 1) (some false)) (k + 1) (by simp [hlen]) (by omega)
                (assignedUpTo_set a n k hkn false hlen hup) res (by rw [← e2, h2])
            | none => simp [dpll, hcc, hfv, h1, h2] at h

theorem assignedUpTo_init (n : Nat) : assignedUpTo (initAssignment n) n 0 := by
  intro i h1 _
  rw [getD_initAssignment]
  simp
  omega

theorem solve_upTo (cs : List (List Int)) (n : Nat) (a : Assignment)
    (h : solve cs n = some a) :
    a.length = n + 1 ∧ ∃ m, m ≤ n ∧ assignedUpTo a n m :=
  dpll_upTo cs n (n + 1) (initAssignment n) 0 (length_initAssignment n) (by omega)
    (assignedUpTo_init n) a h

theorem specClauseViolated_iff (a : Assignment) (c : List Int) :
    specClauseViolated a c = true ↔ evalClause a c = some false := by
  rw [specClauseViolated, List.all_eq_true, evalClause_eq_some_false]
  constructor
  · intro h l hl; have := h l hl; simpa using this
  · intro h l hl; simpa using h l hl

theorem specClauseSat_iff (a : Assignment) (c : List Int) :
    specClauseSat a c = true ↔ evalClause a c = some true := by
  rw [specClauseSat, List.any_eq_true, evalClause_eq_some_true]
  constructor
  · rintro ⟨l, hl, hv⟩; exact ⟨l, hl, by simpa using hv⟩
  · rintro ⟨l, hl, hv⟩; exact ⟨l, hl, by simpa using hv⟩

theorem checkClauses_none_iff_any (a : Assignment) (cs : List (List Int)) :
    checkClauses a cs = none ↔ cs.any (specClauseViolated a) = true := by
  rw [checkClauses_eq_none_iff, List.any_eq_true]
  constructor
  · rintro ⟨c, hc, he⟩; exact ⟨c, hc, (specClauseViolated_iff a c).mpr he⟩
  · rintro ⟨c, hc, he⟩; exact ⟨c, hc, (specClauseViolated_iff a c).mp he⟩

theorem checkClauses_some_true_iff_all (a : Assignment) (cs : List (List Int)) :
    checkClauses a cs = some true ↔ cs.all (specClauseSat a) = true := by
  rw [checkClauses_eq_some_true_iff, List.all_eq_true]
  constructor
  · intro h c hc; exact (specClauseSat_iff a c).mpr (h c hc)
  · intro h c hc; exact (specClauseSat_iff a c).mp (h c hc)

theorem dpll_eq_specSearch (cs : List (List Int)) (n : Nat) :
    ∀ fuel a, (dpll cs n fuel a).1 = specSearch cs n fuel a := by
  intro fuel
  induction fuel with
  | zero => intro a; rfl
  | succ f ih =>
    intro a
    cases hcc : checkClauses a cs with
    | none =>
      have hany : cs.any (specClauseViolated a) = true :=
        (checkClauses_none_iff_any a cs).mp hcc
      simp [dpll, specSearch, hcc, hany]
    | some b =>
      have hnotany : cs.any (specClauseViolated a) = false := by
        cases hval : cs.any (specClauseViolated a) with
        | false => rfl
        | true =>
          have := (checkClauses_none_iff_any a cs).mpr hval
          rw [hcc] at this
          exact absurd this (by simp)
      cases b with
      | true =>
        have hall : cs.all (specClauseSat a) = true :=
          (checkClauses_some_true_iff_all a cs).mp hcc
        simp [dpll, specSearch, hcc, hnotany, hall]
      | false =>
        have hnall : cs.all (specClauseSat a) = false := by
          cases hval : cs.all (specClauseSat a) with
          | false => rfl
          | true =>
            have := (checkClauses_some_true_iff_all a cs).mpr hval
            rw [hcc] at this
            exact absurd this (by simp)
        cases hfv : findUnassigned a n with
        | none =>
          have hsel : specSelectVar a n = none := hfv
          simp [dpll, specSearch, hcc, hnotany, hnall, hfv, hsel]
        | some v =>
          have hsel : specSelectVar a n = some v := hfv
          rcases h1 : dpll cs n f (a.set v (some true)) with ⟨r1, s1⟩
          have ih1 : specSearch cs n f (a.set v (some true)) = r1 := by
            rw [← ih (a.set v (some true)), h1]
          cases r1 with
          | some res =>
            simp [dpll, specSearch, hcc, hnotany, hnall, hfv, hsel, h1, ih1]
          | none =>
            have e1 : s1 = a.set v (some true) := by
              have := dpll_restore cs n f (a.set v (some true)) (by rw [h1])
              rw [h1] at this; exact this
            have ih2 : (dpll cs n f (s1.set v (some false))).1
                = specSearch cs n f (a.set v (some false)) := by
              rw [e1, List.set_set]
              exact ih (a.set v (some false))
            rcases h2 : dpll cs n f (s1.set v (some false)) with ⟨r2, s2⟩
            rw [h2] at ih2
            cases r2 with
            | some res =>
              simp [dpll, specSearch, hcc, hnotany, hnall, hfv, hsel, h1, ih1, h2,
                ih2.symm]
            | none =>
              simp [dpll, specSearch, hcc, hnotany, hnall, hfv, hsel, h1, ih1, h2,
                ih2.symm]

theorem solve_eq_specSolve (cs : List (List Int)) (n : Nat) :
    solve cs n = specSolve cs n :=
  dpll_eq_specSearch cs n (n + 1) (initAssignment n)

/-! ### The fuel parameter is inert: any two budgets exceeding the
number of unassigned variables give the same result, so the
`numVars + 1` budget that `solve` supplies is never exhausted -/

theorem dpll_fuel_irrel (cs : List (List Int)) (n : Nat) :
    ∀ f1 f2 a, unassignedCount a n < f1 → unassignedCount a n < f2 →
      a.length = n + 1 → dpll cs n f1 a = dpll cs n f2 a := by
  intro f1
  induction f1 with
  | zero => intro f2 a h; omega
  | succ g1 ih =>
    intro f2 a hc1 hc2 hlen
    cases f2 with
    | zero => omega
    | succ g2 =>
      cases hcc : checkClauses a cs with
      | none => simp [dpll, hcc]
      | some b =>
        cases b with
        | true => simp [dpll, hcc]
        | false =>
          cases hfv : findUnassigned a n with
          | none => simp [dpll, hcc, hfv]
          | some v =>
            obtain ⟨hv1, hv2, hvn⟩ := findUnassigned_some a n v hfv
            have hvlen : v < a.length := by omega
            have hdec := unassignedCount_set a n v true hv1 hv2 hvn hvlen
            have hdecF := unassignedCount_set a n v false hv1 hv2 hvn hvlen
            have e1 : dpll cs n g1 (a.set v (some true))
                = dpll cs n g2 (a.set v (some true)) :=
              ih g2 (a.set v (some true)) (by omega) (by omega) (by simp [hlen])
            rcases h1 : dpll cs n g1 (a.set v (some true)) with ⟨r1, s1⟩
            rw [h1] at e1
            cases r1 with
            | some res => simp [dpll, hcc, hfv, h1, ← e1]
            | none =>
              have es1 : s1 = a.set v (some true) := by
                have := dpll_restore cs n g1 (a.set v (some true)) (by rw [h1])
                rw [h1] at this
                exact this
              have e2 : dpll cs n g1 (s1.set v (some false))
                  = dpll cs n g2 (s1.set v (some false)) := by
                rw [es1, List.set_set]
                exact ih g2 (a.set v (some false)) (by omega) (by omega)
                  (by simp [hlen])
              rcases h2 : dpll cs n g1 (s1.set v (some false)) with ⟨r2, s2⟩
              rw [h2] at e2
              cases r2 with
              | some res => simp [dpll, hcc, hfv, h1, h2, ← e1, ← e2]
              | none => simp [dpll, hcc, hfv, h1, h2, ← e1, ← e2]

theorem solve_eq_dpll_any_fuel (cs : List (List Int)) (n fuel : Nat)
    (h : n + 1 ≤ fuel) :
    (dpll cs n fuel (initAssignment n)).1 = solve cs n := by
  unfold solve
  rw [dpll_fuel_irrel cs n fuel (n + 1) (initAssignment n)
    (by rw [unassignedCount_init]; omega) (by rw [unassignedCount_init]; omega)
    (length_initAssignment n)]

/-! ### Variable-numbering arithmetic -/

theorem candTotal_cons (c : List Pos) (rest : List (List Pos)) :
    candTotal (c :: rest) = c.length + candTotal rest := by
  simp [candTotal]

theorem candOffset_zero (cands : List (List Pos)) : candOffset cands 0 = 0 := by
  simp [candOffset]

theorem candOffset_succ_cons (c : List Pos) (rest : List (List Pos)) (i : Nat) :
    candOffset (c :: rest) (i + 1) = c.length + candOffset rest i := by
  simp [candOffset, List.take_succ_cons]

theorem candOffset_add_le (cands : List (List Pos)) (i : Nat) (hi : i < cands.length) :
    candOffset cands i + (cands.getD i []).length ≤ candTotal cands := by
  induction cands generalizing i with
  | nil => simp at hi
  | cons c rest ih =>
    cases i with
    | zero =>
      rw [candOffset_zero, candTotal_cons, List.getD_cons_zero]
      omega
    | succ j =>
      rw [candOffset_succ_cons, candTotal_cons, List.getD_cons_succ]
      have := ih j (by simpa using hi)
      omega

theorem orgVar_bounds (oc : List (List Pos)) (i p : Nat)
    (hi : i < oc.length) (hp : p < (oc.getD i []).length) :
    1 ≤ orgVar oc i p ∧ orgVar oc i p ≤ candTotal oc := by
  unfold orgVar
  have := candOffset_add_le oc i hi
  omega

theorem labelVar_bounds (oc lc : List (List Pos)) (i p : Nat)
    (hi : i < lc.length) (hp : p < (lc.getD i []).length) :
    candTotal oc + 1 ≤ labelVar oc lc i p
      ∧ labelVar oc lc i p ≤ encodeNumVars oc lc := by
  unfold labelVar encodeNumVars
  have := candOffset_add_le lc i hi
  omega

/-! ### Structure of the emitted clauses -/

theorem orgVarsClause_length (oc : List (List Pos)) (i : Nat) :
    (orgVarsClause oc i).length = (oc.getD i []).length := by
  simp [orgVarsClause]

theorem labelVarsClause_length (oc lc : List (List Pos)) (i : Nat) :
    (labelVarsClause oc lc i).length = (lc.getD i []).length := by
  simp [labelVarsClause]

theorem orgVarsClause_getD (oc : List (List Pos)) (i p : Nat)
    (hp : p < (oc.getD i []).length) :
    (orgVarsClause oc i).getD p 0 = (orgVar oc i p : Int) := by
  rw [orgVarsClause, List.getD_eq_getElem?_getD, List.getElem?_map,
    List.getElem?_range hp]
  rfl

theorem labelVarsClause_getD (oc lc : List (List Pos)) (i p : Nat)
    (hp : p < (lc.getD i []).length) :
    (labelVarsClause oc lc i).getD p 0 = (labelVar oc lc i p : Int) := by
  rw [labelVarsClause, List.getD_eq_getElem?_getD, List.getElem?_map,
    List.getElem?_range hp]
  rfl

theorem mem_orgVarsClause (oc : List (List Pos)) (i : Nat) (l : Int) :
    l ∈ orgVarsClause oc i
      ↔ ∃ p, p < (oc.getD i []).length ∧ l = (orgVar oc i p : Int) := by
  constructor
  · intro h
    rcases List.mem_map.mp h with ⟨p, hp, rfl⟩
    exact ⟨p, List.mem_range.mp hp, rfl⟩
  · rintro ⟨p, hp, rfl⟩
    exact List.mem_map.mpr ⟨p, List.mem_range.mpr hp, rfl⟩

theorem mem_labelVarsClause (oc lc : List (List Pos)) (i : Nat) (l : Int) :
    l ∈ labelVarsClause oc lc i
      ↔ ∃ p, p < (lc.getD i []).length ∧ l = (labelVar oc lc i p : Int) := by
  constructor
  · intro h
    rcases List.mem_map.mp h with ⟨p, hp, rfl⟩
    exact ⟨p, List.mem_range.mp hp, rfl⟩
  · rintro ⟨p, hp, rfl⟩
    exact List.mem_map.mpr ⟨p, List.mem_range.mpr hp, rfl⟩

theorem mem_atMostOne (vs : List Int) (c : List Int) :
    c ∈ atMostOne vs ↔ ∃ p1 p2, p1 < p2 ∧ p2 < vs.length ∧
      c = [-(vs.getD p1 0), -(vs.getD p2 0)] := by
  unfold atMostOne
  constructor
  · intro h
    rcases List.mem_flatMap.mp h with ⟨p1, hp1, hc⟩
    rcases List.mem_map.mp hc with ⟨p2, hp2, rfl⟩
    rw [List.mem_range] at hp1
    rw [mem_range'_one] at hp2
    exact ⟨p1, p2, by omega, by omega, rfl⟩
  · rintro ⟨p1, p2, h12, h2, rfl⟩
    refine List.mem_flatMap.mpr ⟨p1, List.mem_range.mpr (by omega), ?_⟩
    exact List.mem_map.mpr ⟨p2, mem_range'_one.mpr ⟨by omega, by omega⟩, rfl⟩

theorem mem_exactlyOne (vs c : List Int) (hc : c ∈ exactlyOne vs) :
    c = vs ∨ ∃ p1 p2, p1 < p2 ∧ p2 < vs.length ∧
      c = [-(vs.getD p1 0), -(vs.getD p2 0)] := by
  unfold exactlyOne at hc
  by_cases he : vs.isEmpty
  · rw [if_pos he] at hc; simp at hc
  · rw [if_neg he] at hc
    rcases List.mem_cons.mp hc with rfl | h
    · exact Or.inl rfl
    · exact Or.inr ((mem_atMostOne vs c).mp h)

theorem encodeOrgEO_lit_shape (oc : List (List Pos)) (c : List Int)
    (hc : c ∈ encodeOrgEO oc) (l : Int) (hl : l ∈ c) :
    ∃ i p, i < oc.length ∧ p < (oc.getD i []).length ∧
      (l = (orgVar oc i p : Int) ∨ l = -(orgVar oc i p : Int)) := by
  unfold encodeOrgEO at hc
  rcases List.mem_flatMap.mp hc with ⟨i, hi, hcc⟩
  rw [List.mem_range] at hi
  rcases mem_exactlyOne _ _ hcc with rfl | ⟨p1, p2, h12, h2, rfl⟩
  · rcases (mem_orgVarsClause oc i l).mp hl with ⟨p, hp, rfl⟩
    exact ⟨i, p, hi, hp, Or.inl rfl⟩
  · rw [orgVarsClause_length] at h2
    rcases List.mem_cons.mp hl with rfl | hl2
    · refine ⟨i, p1, hi, by omega, Or.inr ?_⟩
      rw [orgVarsClause_getD oc i p1 (by omega)]
    · rcases List.mem_cons.mp hl2 with rfl | hl3
      · refine ⟨i, p2, hi, by omega, Or.inr ?_⟩
        rw [orgVarsClause_getD oc i p2 (by omega)]
      · simp at hl3

theorem getD_nil_of_le (lc : List (List Pos)) (i : Nat) (h : lc.length ≤ i) :
    lc.getD i [] = [] := by
  rw [List.getD_eq_getElem?_getD, List.getElem?_eq_none h]
  rfl

theorem encodeLabelEO_lit_shape (oc lc : List (List Pos)) (m : Nat) (c : List Int)
    (hc : c ∈ encodeLabelEO oc lc m) (l : Int) (hl : l ∈ c) :
    ∃ i p, i < m ∧ i < lc.length ∧ p < (lc.getD i []).length ∧
      (l = (labelVar oc lc i p : Int) ∨ l = -(labelVar oc lc i p : Int)) := by
  unfold encodeLabelEO at hc
  rcases List.mem_flatMap.mp hc with ⟨i, hi, hcc⟩
  rw [List.mem_range] at hi
  have key : ∀ p, p < (lc.getD i []).length → i < lc.length := by
    intro p hp
    by_contra hle
    rw [getD_nil_of_le lc i (by omega)] at hp
    simp at hp
  rcases mem_exactlyOne _ _ hcc with rfl | ⟨p1, p2, h12, h2, rfl⟩
  · rcases (mem_labelVarsClause oc lc i l).mp hl with ⟨p, hp, rfl⟩
    exact ⟨i, p, hi, key p hp, hp, Or.inl rfl⟩
  · rw [labelVarsClause_length] at h2
    rcases List.mem_cons.mp hl with rfl | hl2
    · refine ⟨i, p1, hi, key p2 h2, by omega, Or.inr ?_⟩
      rw [labelVarsClause_getD oc lc i p1 (by omega)]
    · rcases List.mem_cons.mp hl2 with rfl | hl3
      · refine ⟨i, p2, hi, key p2 h2, by omega, Or.inr ?_⟩
        rw [labelVarsClause_getD oc lc i p2 (by omega)]
      · simp at hl3

theorem encodeOrgOverlap_shape (oc : List (List Pos)) (c : List Int)
    (hc : c ∈ encodeOrgOverlap oc) :
    ∃ i j p q, i < j ∧ j < oc.length ∧ p < (oc.getD i []).length
      ∧ q < (oc.getD j []).length
      ∧ positionsOverlap ((oc.getD i []).getD p ⟨0, 0⟩)
          ((oc.getD j []).getD q ⟨0, 0⟩) 60 = true
      ∧ c = [-(orgVar oc i p : Int), -(orgVar oc j q : Int)] := by
  unfold encodeOrgOverlap at hc
  rcases List.mem_flatMap.mp hc with ⟨i, hi, hc1⟩
  rcases List.mem_flatMap.mp hc1 with ⟨j, hj, hc2⟩
  rcases List.mem_flatMap.mp hc2 with ⟨p, hp, hc3⟩
  rcases List.mem_filterMap.mp hc3 with ⟨q, hq, hqe⟩
  rw [List.mem_range] at hi hp
  rw [List.mem_range] at hq
  rw [mem_range'_one] at hj
  by_cases hov : positionsOverlap ((oc.getD i []).getD p ⟨0, 0⟩)
      ((oc.getD j []).getD q ⟨0, 0⟩) 60 = true
  · rw [if_pos hov] at hqe
    exact ⟨i, j, p, q, by omega, by omega, hp, hq, hov, (Option.some.inj hqe).symm⟩
  · rw [if_neg hov] at hqe
    exact absurd hqe (by simp)

theorem encodeLabelOverlap_shape (oc lc : List (List Pos)) (circles : List Circle)
    (c : List Int) (hc : c ∈ encodeLabelOverlap oc lc circles) :
    ∃ i j p q, i < j ∧ j < circles.length ∧ p < (lc.getD i []).length
      ∧ q < (lc.getD j []).length
      ∧ labelsOverlap ((lc.getD i []).getD p ⟨0, 0⟩)
          ((circles.getD i ⟨"", 0, 0, 0⟩).name)
          ((lc.getD j []).getD q ⟨0, 0⟩)
          ((circles.getD j ⟨"", 0, 0, 0⟩).name) = true
      ∧ c = [-(labelVar oc lc i p : Int), -(labelVar oc lc j q : Int)] := by
  unfold encodeLabelOverlap at hc
  rcases List.mem_flatMap.mp hc with ⟨i, hi, hc1⟩
  rcases List.mem_flatMap.mp hc1 with ⟨j, hj, hc2⟩
  rcases List.mem_flatMap.mp hc2 with ⟨p, hp, hc3⟩
  rcases List.mem_filterMap.mp hc3 with ⟨q, hq, hqe⟩
  rw [List.mem_range] at hi hp
  rw [List.mem_range] at hq
  rw [mem_range'_one] at hj
  by_cases hov : labelsOverlap ((lc.getD i []).getD p ⟨0, 0⟩)
      ((circles.getD i ⟨"", 0, 0, 0⟩).name)
      ((lc.getD j []).getD q ⟨0, 0⟩)
      ((circles.getD j ⟨"", 0, 0, 0⟩).name) = true
  · rw [if_pos hov] at hqe
    exact ⟨i, j, p, q, by omega, by omega, hp, hq, hov, (Option.some.inj hqe).symm⟩
  · rw [if_neg hov] at hqe
    exact absurd hqe (by simp)

/-! ### Every emitted literal names an allocated variable -/

theorem encode_litsInRange (oc : List (List Pos)) (circles : List Circle)
    (lc : List (List Pos)) (hlen : circles.length = lc.length) :
    litsInRange (encodeSATClauses oc circles lc) (encodeNumVars oc lc) := by
  intro c hc l hl
  rw [encodeSATClauses] at hc
  rcases List.mem_append.mp hc with hc' | h4
  · rcases List.mem_append.mp hc' with hc'' | h3
    · rcases List.mem_append.mp hc'' with h1 | h2
      · rcases encodeOrgEO_lit_shape oc c h1 l hl with ⟨i, p, hi, hp, hor⟩
        have hb := orgVar_bounds oc i p hi hp
        rcases hor with rfl | rfl
        · rw [Int.natAbs_ofNat]
          unfold encodeNumVars
          omega
        · rw [Int.natAbs_neg, Int.natAbs_ofNat]
          unfold encodeNumVars
          omega
      · rcases encodeLabelEO_lit_shape oc lc circles.length c h2 l hl with
          ⟨i, p, _, hi, hp, hor⟩
        have hb := labelVar_bounds oc lc i p hi hp
        rcases hor with rfl | rfl
        · rw [Int.natAbs_ofNat]; omega
        · rw [Int.natAbs_neg, Int.natAbs_ofNat]; omega
    · rcases encodeOrgOverlap_shape oc c h3 with ⟨i, j, p, q, hij, hj, hp, hq, -, rfl⟩
      have hbi := orgVar_bounds oc i p (by omega) hp
      have hbj := orgVar_bounds oc j q hj hq
      rcases List.mem_cons.mp hl with rfl | hl2
      · rw [Int.natAbs_neg, Int.natAbs_ofNat]
        unfold encodeNumVars
        omega
      · rcases List.mem_cons.mp hl2 with rfl | hl3
        · rw [Int.natAbs_neg, Int.natAbs_ofNat]
          unfold encodeNumVars
          omega
        · simp at hl3
  · rcases encodeLabelOverlap_shape oc lc circles c h4 with
      ⟨i, j, p, q, hij, hj, hp, hq, -, rfl⟩
    have hbi := labelVar_bounds oc lc i p (by omega) hp
    have hbj := labelVar_bounds oc lc j q (by omega) hq
    rcases List.mem_cons.mp hl with rfl | hl2
    · rw [Int.natAbs_neg, Int.natAbs_ofNat]; omega
    · rcases List.mem_cons.mp hl2 with rfl | hl3
      · rw [Int.natAbs_neg, Int.natAbs_ofNat]; omega
      · simp at hl3

/-! ### Reading selector values off literal values -/

theorem getD_true_of_litVal_pos (a : Assignment) (v : Nat) (h1 : 1 ≤ v)
    (h : litVal a (v : Int) = some true) : a.getD v none = some true := by
  unfold litVal at h
  rw [Int.natAbs_ofNat] at h
  cases hg : a.getD v none with
  | none => rw [hg] at h; simp at h
  | some w =>
    rw [hg] at h
    have hpos : (0 : Int) < (v : Int) := by exact_mod_cast h1
    simp [hpos] at h
    rw [h]

theorem getD_false_of_litVal_neg (a : Assignment) (v : Nat) (h1 : 1 ≤ v)
    (h : litVal a (-(v : Int)) = some true) : a.getD v none = some false := by
  unfold litVal at h
  rw [show (-(v : Int)).natAbs = v by simp] at h
  cases hg : a.getD v none with
  | none => rw [hg] at h; simp at h
  | some w =>
    rw [hg] at h
    have hpos : ¬ (0 : Int) < -(v : Int) := by
      have : (0 : Int) < (v : Int) := by exact_mod_cast h1
      omega
    simp [hpos] at h
    rw [h]

/-! ### Membership of the individual constraint clauses in the
encoded formula -/

theorem orgAtLeastOne_mem (oc : List (List Pos)) (circles : List Circle)
    (lc : List (List Pos)) (i : Nat) (hi : i < oc.length)
    (hne : oc.getD i [] ≠ []) :
    orgVarsClause oc i ∈ encodeSATClauses oc circles lc := by
  rw [encodeSATClauses]
  refine List.mem_append.mpr (Or.inl (List.mem_append.mpr
    (Or.inl (List.mem_append.mpr (Or.inl ?_)))))
  unfold encodeOrgEO
  refine List.mem_flatMap.mpr ⟨i, List.mem_range.mpr hi, ?_⟩
  unfold exactlyOne
  have hne' : (orgVarsClause oc i).isEmpty = false := by
    rw [List.isEmpty_eq_false]
    intro e
    have hl := orgVarsClause_length oc i
    rw [e] at hl
    exact hne (List.length_eq_zero.mp hl.symm)
  rw [if_neg (by simp [hne'])]
  exact List.mem_cons_self _ _

theorem orgPair_mem (oc : List (List Pos)) (circles : List Circle)
    (lc : List (List Pos)) (i p1 p2 : Nat) (hi : i < oc.length) (h12 : p1 < p2)
    (hp2 : p2 < (oc.getD i []).length) :
    [-(orgVar oc i p1 : Int), -(orgVar oc i p2 : Int)]
      ∈ encodeSATClauses oc circles lc := by
  rw [encodeSATClauses]
  refine List.mem_append.mpr (Or.inl (List.mem_append.mpr
    (Or.inl (List.mem_append.mpr (Or.inl ?_)))))
  unfold encodeOrgEO
  refine List.mem_flatMap.mpr ⟨i, List.mem_range.mpr hi, ?_⟩
  unfold exactlyOne
  have hne' : (orgVarsClause oc i).isEmpty = false := by
    rw [List.isEmpty_eq_false]
    intro e
    have hl := orgVarsClause_length oc i
    rw [e] at hl
    simp at hl
    rw [List.getD_eq_getElem?_getD] at hp2
    omega
  rw [if_neg (by simp [hne'])]
  refine List.mem_cons_of_mem _ ((mem_atMostOne _ _).mpr ⟨p1, p2, h12, ?_, ?_⟩)
  · rw [orgVarsClause_length]; exact hp2
  · rw [orgVarsClause_getD oc i p1 (by omega), orgVarsClause_getD oc i p2 hp2]

theorem labelAtLeastOne_mem (oc : List (List Pos)) (circles : List Circle)
    (lc : List (List Pos)) (hlen : circles.length = lc.length) (i : Nat)
    (hi : i < lc.length) (hne : lc.getD i [] ≠ []) :
    labelVarsClause oc lc i ∈ encodeSATClauses oc circles lc := by
  rw [encodeSATClauses]
  refine List.mem_append.mpr (Or.inl (List.mem_append.mpr
    (Or.inl (List.mem_append.mpr (Or.inr ?_)))))
  unfold encodeLabelEO
  refine List.mem_flatMap.mpr ⟨i, List.mem_range.mpr (by omega), ?_⟩
  unfold exactlyOne
  have hne' : (labelVarsClause oc lc i).isEmpty = false := by
    rw [List.isEmpty_eq_false]
    intro e
    have hl := labelVarsClause_length oc lc i
    rw [e] at hl
    exact hne (List.length_eq_zero.mp hl.symm)
  rw [if_neg (by simp [hne'])]
  exact List.mem_cons_self _ _

theorem labelPair_mem (oc : List (List Pos)) (circles : List Circle)
    (lc : List (List Pos)) (hlen : circles.length = lc.length) (i p1 p2 : Nat)
    (hi : i < lc.length) (h12 : p1 < p2) (hp2 : p2 < (lc.getD i []).length) :
    [-(labelVar oc lc i p1 : Int), -(labelVar oc lc i p2 : Int)]
      ∈ encodeSATClauses oc circles lc := by
  rw [encodeSATClauses]
  refine List.mem_append.mpr (Or.inl (List.mem_append.mpr
    (Or.inl (List.mem_append.mpr (Or.inr ?_)))))
  unfold encodeLabelEO
  refine List.mem_flatMap.mpr ⟨i, List.mem_range.mpr (by omega), ?_⟩
  unfold exactlyOne
  have hne' : (labelVarsClause oc lc i).isEmpty = false := by
    rw [List.isEmpty_eq_false]
    intro e
    have hl := labelVarsClause_length oc lc i
    rw [e] at hl
    simp at hl
    rw [List.getD_eq_getElem?_getD] at hp2
    omega
  rw [if_neg (by simp [hne'])]
  refine List.mem_cons_of_mem _ ((mem_atMostOne _ _).mpr ⟨p1, p2, h12, ?_, ?_⟩)
  · rw [labelVarsClause_length]; exact hp2
  · rw [labelVarsClause_getD oc lc i p1 (by omega),
      labelVarsClause_getD oc lc i p2 hp2]

theorem orgOverlapClause_mem (oc : List (List Pos)) (circles : List Circle)
    (lc : List (List Pos)) (i j p q : Nat)
    (hij : i < j) (hj : j < oc.length) (hp : p < (oc.getD i []).length)
    (hq : q < (oc.getD j []).length)
    (hov : positionsOverlap ((oc.getD i []).getD p ⟨0, 0⟩)
      ((oc.getD j []).getD q ⟨0, 0⟩) 60 = true) :
    [-(orgVar oc i p : Int), -(orgVar oc j q : Int)]
      ∈ encodeSATClauses oc circles lc := by
  rw [encodeSATClauses]
  refine List.mem_append.mpr (Or.inl (List.mem_append.mpr (Or.inr ?_)))
  unfold encodeOrgOverlap
  refine List.mem_flatMap.mpr ⟨i, List.mem_range.mpr (by omega), ?_⟩
  refine List.mem_flatMap.mpr ⟨j, mem_range'_one.mpr ⟨by omega, by omega⟩, ?_⟩
  refine List.mem_flatMap.mpr ⟨p, List.mem_range.mpr hp, ?_⟩
  refine List.mem_filterMap.mpr ⟨q, List.mem_range.mpr hq, ?_⟩
  rw [if_pos hov]

theorem labelOverlapClause_mem (oc : List (List Pos)) (circles : List Circle)
    (lc : List (List Pos)) (i j p q : Nat)
    (hij : i < j) (hj : j < circles.length) (hp : p < (lc.getD i []).length)
    (hq : q < (lc.getD j []).length)
    (hov : labelsOverlap ((lc.getD i []).getD p ⟨0, 0⟩)
      ((circles.getD i ⟨"", 0, 0, 0⟩).name)
      ((lc.getD j []).getD q ⟨0, 0⟩)
      ((circles.getD j ⟨"", 0, 0, 0⟩).name) = true) :
    [-(labelVar oc lc i p : Int), -(labelVar oc lc j q : Int)]
      ∈ encodeSATClauses oc circles lc := by
  rw [encodeSATClauses]
  refine List.mem_append.mpr (Or.inr ?_)
  unfold encodeLabelOverlap
  refine List.mem_flatMap.mpr ⟨i, List.mem_range.mpr (by omega), ?_⟩
  refine List.mem_flatMap.mpr ⟨j, mem_range'_one.mpr ⟨by omega, by omega⟩, ?_⟩
  refine List.mem_flatMap.mpr ⟨p, List.mem_range.mpr hp, ?_⟩
  refine List.mem_filterMap.mpr ⟨q, List.mem_range.mpr hq, ?_⟩
  rw [if_pos hov]

/-! ## Claim theorems -/

/-- C1.  Completeness of the solver: for a formula whose clauses
mention only allocated variables, `solve` returns `none`
(Unsatisfiable) exactly when no total boolean assignment over the
allocated variables satisfies every clause — in particular, if at
least one model exists then `solve` returns a non-null assignment. -/
theorem solver_completeness (cs : List (List Int)) (n : Nat)
    (hin : litsInRange cs n) :
    solve cs n = none ↔ ¬ satisfiable cs n := by
  constructor
  · intro h hsat
    exact solve_ne_none_of_model cs n hin hsat h
  · intro h
    cases hs : solve cs n with
    | none => rfl
    | some a => exact absurd (satisfiable_of_solve_some cs n hin a hs) h

theorem solver_completeness_witness :
    litsInRange [[1], [-1]] 1
      ∧ (solve [[1], [-1]] 1 = none ↔ ¬ satisfiable [[1], [-1]] 1) :=
  ⟨by decide, solver_completeness [[1], [-1]] 1 (by decide)⟩

/-- C2.  Soundness of the solver: for a formula whose clauses mention
only allocated variables, every non-null assignment returned by
`solve` makes at least one literal of every clause evaluate true. -/
theorem solver_soundness (cs : List (List Int)) (n : Nat) (hin : litsInRange cs n)
    (a : Assignment) (hs : solve cs n = some a) :
    ∀ c ∈ cs, ∃ l ∈ c, litVal a l = some true := by
  obtain ⟨-, hcl⟩ := solve_sound cs n hin a hs
  intro c hc
  exact (evalClause_eq_some_true a c).mp (hcl c hc)

theorem solver_soundness_witness :
    litsInRange [[1, 2], [-1, 2]] 2
      ∧ solve [[1, 2], [-1, 2]] 2 = some [none, some true, some true]
      ∧ ∀ c ∈ [[1, 2], [-1, 2]],
          ∃ l ∈ c, litVal [none, some true, some true] l = some true :=
  ⟨by decide, by decide,
    solver_soundness [[1, 2], [-1, 2]] 2 (by decide)
      [none, some true, some true] (by decide)⟩

/-- C3, counterexample.  The claim that every returned assignment is
total fails: with two allocated variables and the single clause `[1]`,
`solve` returns an assignment in which variable 2 is unassigned
(`undefined`), because the all-clauses-satisfied path returns the
partial assignment without branching on variable 2. -/
theorem solver_totality_counterexample :
    solve [[1]] 2 = some [none, some true, none]
      ∧ ([none, some true, none] : Assignment).getD 2 none = none := by
  exact ⟨by decide, rfl⟩

/-- C3, amended.  Whenever `solve` returns a satisfying result, the
returned array has length `numVars + 1` and the variables holding a
defined boolean value are exactly `1..m` for some `m ≤ numVars` — the
lowest-numbered variables, branched on before every clause became
satisfied; the remaining variables `m+1..numVars` may be left
unassigned, so the result need not be total. -/
theorem solver_partial_totality (cs : List (List Int)) (n : Nat) (a : Assignment)
    (hs : solve cs n = some a) :
    a.length = n + 1 ∧ ∃ m, m ≤ n ∧ ∀ i, 1 ≤ i → i ≤ n →
      ((a.getD i none).isSome ↔ i ≤ m) := by
  obtain ⟨h1, m, hm, hup⟩ := solve_upTo cs n a hs
  exact ⟨h1, m, hm, hup⟩

theorem solver_partial_totality_witness :
    solve [[1]] 2 = some [none, some true, none]
      ∧ (([none, some true, none] : Assignment).length = 2 + 1
        ∧ ∃ m, m ≤ 2 ∧ ∀ i, 1 ≤ i → i ≤ 2 →
          ((([none, some true, none] : Assignment).getD i none).isSome ↔ i ≤ m)) :=
  ⟨by decide, solver_partial_totality [[1]] 2 [none, some true, none] (by decide)⟩

/-- C6.  No leaked search state on failure: whenever the recursive
search returns null, the shared assignment array is element-for-element
identical to its state at entry — the variable tentatively assigned at
that level is restored to unassigned. -/
theorem dpll_no_leaked_state (cs : List (List Int)) (n fuel : Nat) (a : Assignment)
    (h : (dpll cs n fuel a).1 = none) : (dpll cs n fuel a).2 = a :=
  dpll_restore cs n fuel a h

theorem dpll_no_leaked_state_witness :
    (dpll [[1], [-1]] 1 2 [none, none]).1 = none
      ∧ (dpll [[1], [-1]] 1 2 [none, none]).2 = [none, none] :=
  ⟨by decide, dpll_no_leaked_state [[1], [-1]] 1 2 [none, none] (by decide)⟩

/-- C7.  Fixed branching policy: `solve` computes exactly the result of
the specification's reference exhaustive backtracking search, which at
every node evaluates clauses with three-valued any/all status, selects
the lowest-numbered currently-unassigned variable, and tries `true`
before `false`; consequently the result is a fixed function of the
clause list and variable count. -/
theorem solve_refines_specSearch (cs : List (List Int)) (n : Nat) :
    solve cs n = specSolve cs n :=
  solve_eq_specSolve cs n

/-- C10.  Out-of-range literals are not detected at the engine
boundary: with `numVars = 1` and the single clause `[5]`, `solve`
returns a non-null result whose assignment satisfies no literal of that
clause (the clause still evaluates to `undefined`), because the search
never branches on the unallocated variable 5 and the
all-variables-assigned path returns the partial assignment. -/
theorem out_of_range_literal_not_detected :
    solve [[5]] 1 = some [none, some true]
      ∧ evalClause [none, some true] [5] = none
      ∧ ∀ l ∈ [(5 : Int)], litVal [none, some true] l ≠ some true := by
  exact ⟨by decide, by decide, by decide⟩

/-- C4.  Exactly-one selection: in any non-null assignment returned by
`solve` on the formula built by `encodeSAT`, every organisation and
every circle label with a non-empty candidate list has exactly one
selector variable true, so the decoder's choice of the first true
selector is unambiguous. -/
theorem encode_exactly_one_selected (oc : List (List Pos)) (circles : List Circle)
    (lc : List (List Pos)) (a : Assignment) (hlen : circles.length = lc.length)
    (hs : solve (encodeSATClauses oc circles lc) (encodeNumVars oc lc) = some a) :
    (∀ i, i < oc.length → oc.getD i [] ≠ [] →
      ∃ p, (p < (oc.getD i []).length ∧ a.getD (orgVar oc i p) none = some true)
        ∧ ∀ q, q < (oc.getD i []).length →
            a.getD (orgVar oc i q) none = some true → q = p)
    ∧ (∀ i, i < lc.length → lc.getD i [] ≠ [] →
      ∃ p, (p < (lc.getD i []).length
          ∧ a.getD (labelVar oc lc i p) none = some true)
        ∧ ∀ q, q < (lc.getD i []).length →
            a.getD (labelVar oc lc i q) none = some true → q = p) := by
  have hin := encode_litsInRange oc circles lc hlen
  obtain ⟨-, hcl⟩ := solve_sound _ _ hin a hs
  constructor
  · intro i hi hne
    rcases (evalClause_eq_some_true a _).mp
      (hcl _ (orgAtLeastOne_mem oc circles lc i hi hne)) with ⟨l, hl, hv⟩
    rcases (mem_orgVarsClause oc i l).mp hl with ⟨p, hp, rfl⟩
    have hbp := orgVar_bounds oc i p hi hp
    have hsel : a.getD (orgVar oc i p) none = some true :=
      getD_true_of_litVal_pos a _ (by omega) hv
    refine ⟨p, ⟨hp, hsel⟩, ?_⟩
    intro q hq hqsel
    by_contra hne'
    have hbq := orgVar_bounds oc i q hi hq
    rcases Nat.lt_or_ge q p with hlt | hge
    · rcases (evalClause_eq_some_true a _).mp
        (hcl _ (orgPair_mem oc circles lc i q p hi hlt hp)) with ⟨l, hl', hv'⟩
      rcases List.mem_cons.mp hl' with rfl | hl2
      · have := getD_false_of_litVal_neg a _ (by omega) hv'
        rw [hqsel] at this
        exact absurd this (by simp)
      · rcases List.mem_cons.mp hl2 with rfl | hl3
        · have := getD_false_of_litVal_neg a _ (by omega) hv'
          rw [hsel] at this
          exact absurd this (by simp)
        · simp at hl3
    · have hlt : p < q := by omega
      rcases (evalClause_eq_some_true a _).mp
        (hcl _ (orgPair_mem oc circles lc i p q hi hlt hq)) with ⟨l, hl', hv'⟩
      rcases List.mem_cons.mp hl' with rfl | hl2
      · have := getD_false_of_litVal_neg a _ (by omega) hv'
        rw [hsel] at this
        exact absurd this (by simp)
      · rcases List.mem_cons.mp hl2 with rfl | hl3
        · have := getD_false_of_litVal_neg a _ (by omega) hv'
          rw [hqsel] at this
          exact absurd this (by simp)
        · simp at hl3
  · intro i hi hne
    rcases (evalClause_eq_some_true a _).mp
      (hcl _ (labelAtLeastOne_mem oc circles lc hlen i hi hne)) with ⟨l, hl, hv⟩
    rcases (mem_labelVarsClause oc lc i l).mp hl with ⟨p, hp, rfl⟩
    have hbp := labelVar_bounds oc lc i p hi hp
    have hsel : a.getD (labelVar oc lc i p) none = some true :=
      getD_true_of_litVal_pos a _ (by omega) hv
    refine ⟨p, ⟨hp, hsel⟩, ?_⟩
    intro q hq hqsel
    by_contra hne'
    have hbq := labelVar_bounds oc lc i q hi hq
    rcases Nat.lt_or_ge q p with hlt | hge
    · rcases (evalClause_eq_some_true a _).mp
        (hcl _ (labelPair_mem oc circles lc hlen i q p hi hlt hp)) with ⟨l, hl', hv'⟩
      rcases List.mem_cons.mp hl' with rfl | hl2
      · have := getD_false_of_litVal_neg a _ (by omega) hv'
        rw [hqsel] at this
        exact absurd this (by simp)
      · rcases List.mem_cons.mp hl2 with rfl | hl3
        · have := getD_false_of_litVal_neg a _ (by omega) hv'
          rw [hsel] at this
          exact absurd this (by simp)
        · simp at hl3
    · have hlt : p < q := by omega
      rcases (evalClause_eq_some_true a _).mp
        (hcl _ (labelPair_mem oc circles lc hlen i p q hi hlt hq)) with ⟨l, hl', hv'⟩
      rcases List.mem_cons.mp hl' with rfl | hl2
      · have := getD_false_of_litVal_neg a _ (by omega) hv'
        rw [hsel] at this
        exact absurd this (by simp)
      · rcases List.mem_cons.mp hl2 with rfl | hl3
        · have := getD_false_of_litVal_neg a _ (by omega) hv'
          rw [hqsel] at this
          exact absurd this (by simp)
        · simp at hl3

/-- C5.  Mutual exclusion of conflicting placements: in any non-null
assignment returned by `solve` on the encoded formula, two candidates
of distinct same-kind entities flagged by the overlap predicate
(`positionsOverlap` at threshold 60 for organisations, `labelsOverlap`
at padding 15 for labels) never have both selectors true. -/
theorem encode_mutual_exclusion (oc : List (List Pos)) (circles : List Circle)
    (lc : List (List Pos)) (a : Assignment) (hlen : circles.length = lc.length)
    (hs : solve (encodeSATClauses oc circles lc) (encodeNumVars oc lc) = some a) :
    (∀ i j p q, i < j → j < oc.length → p < (oc.getD i []).length →
        q < (oc.getD j []).length →
        positionsOverlap ((oc.getD i []).getD p ⟨0, 0⟩)
          ((oc.getD j []).getD q ⟨0, 0⟩) 60 = true →
        ¬(a.getD (orgVar oc i p) none = some true
          ∧ a.getD (orgVar oc j q) none = some true))
    ∧ (∀ i j p q, i < j → j < circles.length → p < (lc.getD i []).length →
        q < (lc.getD j []).length →
        labelsOverlap ((lc.getD i []).getD p ⟨0, 0⟩)
          ((circles.getD i ⟨"", 0, 0, 0⟩).name)
          ((lc.getD j []).getD q ⟨0, 0⟩)
          ((circles.getD j ⟨"", 0, 0, 0⟩).name) = true →
        ¬(a.getD (labelVar oc lc i p) none = some true
          ∧ a.getD (labelVar oc lc j q) none = some true)) := by
  have hin := encode_litsInRange oc circles lc hlen
  obtain ⟨-, hcl⟩ := solve_sound _ _ hin a hs
  constructor
  · intro i j p q hij hj hp hq hov
    rintro ⟨hpt, hqt⟩
    rcases (evalClause_eq_some_true a _).mp
      (hcl _ (orgOverlapClause_mem oc circles lc i j p q hij hj hp hq hov)) with
      ⟨l, hl, hv⟩
    have hbi := orgVar_bounds oc i p (by omega) hp
    have hbj := orgVar_bounds oc j q hj hq
    rcases List.mem_cons.mp hl with rfl | hl2
    · have := getD_false_of_litVal_neg a _ (by omega) hv
      rw [hpt] at this
      exact absurd this (by simp)
    · rcases List.mem_cons.mp hl2 with rfl | hl3
      · have := getD_false_of_litVal_neg a _ (by omega) hv
        rw [hqt] at this
        exact absurd this (by simp)
      · simp at hl3
  · intro i j p q hij hj hp hq hov
    rintro ⟨hpt, hqt⟩
    rcases (evalClause_eq_some_true a _).mp
      (hcl _ (labelOverlapClause_mem oc circles lc i j p q hij hj hp hq hov)) with
      ⟨l, hl, hv⟩
    have hbi := labelVar_bounds oc lc i p (by omega) hp
    have hbj := labelVar_bounds oc lc j q (by omega) hq
    rcases List.mem_cons.mp hl with rfl | hl2
    · have := getD_false_of_litVal_neg a _ (by omega) hv
      rw [hpt] at this
      exact absurd this (by simp)
    · rcases List.mem_cons.mp hl2 with rfl | hl3
      · have := getD_false_of_litVal_neg a _ (by omega) hv
        rw [hqt] at this
        exact absurd this (by simp)
      · simp at hl3

theorem encode_exactly_one_selected_witness :
    solve (encodeSATClauses [[⟨0, 0⟩]] [⟨"A", 500, 400, 100⟩] [[⟨500, 300⟩]])
        (encodeNumVars [[⟨0, 0⟩]] [[⟨500, 300⟩]])
        = some [none, some true, some true]
      ∧ ∃ p, (p < (([[(⟨0, 0⟩ : Pos)]].getD 0 []).length)
          ∧ ([none, some true, some true] : Assignment).getD
              (orgVar [[⟨0, 0⟩]] 0 p) none = some true)
        ∧ ∀ q, q < (([[(⟨0, 0⟩ : Pos)]].getD 0 []).length) →
            ([none, some true, some true] : Assignment).getD
              (orgVar [[⟨0, 0⟩]] 0 q) none = some true → q = p := by
  have hform : encodeSATClauses [[⟨0, 0⟩]] [⟨"A", 500, 400, 100⟩] [[⟨500, 300⟩]]
      = [[1], [2]] := by
    norm_num [encodeSATClauses, encodeOrgEO, encodeLabelEO, encodeOrgOverlap,
      encodeLabelOverlap, exactlyOne, atMostOne, orgVarsClause, labelVarsClause,
      orgVar, labelVar, candOffset, candTotal, positionsOverlap, labelsOverlap,
      getTextBounds, List.range_succ, List.filterMap_cons, List.isEmpty_cons,
      List.cons_ne_nil]
  have hnum : encodeNumVars [[(⟨0, 0⟩ : Pos)]] [[⟨500, 300⟩]] = 2 := by
    norm_num [encodeNumVars, candTotal]
  have hsolve : solve (encodeSATClauses [[⟨0, 0⟩]] [⟨"A", 500, 400, 100⟩]
        [[⟨500, 300⟩]]) (encodeNumVars [[⟨0, 0⟩]] [[⟨500, 300⟩]])
      = some [none, some true, some true] := by
    rw [hform, hnum]
    decide
  exact ⟨hsolve,
    (encode_exactly_one_selected _ _ _ _ rfl hsolve).1 0 (by decide) (by decide)⟩

theorem encode_mutual_exclusion_witness :
    positionsOverlap ⟨0, 0⟩ ⟨10, 0⟩ 60 = true
      ∧ solve (encodeSATClauses [[⟨0, 0⟩, ⟨100, 0⟩], [⟨10, 0⟩]] [] [])
          (encodeNumVars [[⟨0, 0⟩, ⟨100, 0⟩], [⟨10, 0⟩]] [])
          = some [none, some false, some true, some true]
      ∧ ¬(([none, some false, some true, some true] : Assignment).getD
            (orgVar [[⟨0, 0⟩, ⟨100, 0⟩], [⟨10, 0⟩]] 0 0) none = some true
          ∧ ([none, some false, some true, some true] : Assignment).getD
              (orgVar [[⟨0, 0⟩, ⟨100, 0⟩], [⟨10, 0⟩]] 1 0) none = some true) := by
  have hform : encodeSATClauses [[⟨0, 0⟩, ⟨100, 0⟩], [⟨10, 0⟩]] [] []
      = [[1, 2], [-1, -2], [3], [-1, -3]] := by
    norm_num [encodeSATClauses, encodeOrgEO, encodeLabelEO, encodeOrgOverlap,
      encodeLabelOverlap, exactlyOne, atMostOne, orgVarsClause, labelVarsClause,
      orgVar, labelVar, candOffset, candTotal, positionsOverlap, labelsOverlap,
      getTextBounds, List.range_succ, List.filterMap_cons, List.isEmpty_cons,
      List.cons_ne_nil]
  have hnum : encodeNumVars [[(⟨0, 0⟩ : Pos), ⟨100, 0⟩], [⟨10, 0⟩]] [] = 3 := by
    norm_num [encodeNumVars, candTotal]
  have hov : positionsOverlap (⟨0, 0⟩ : Pos) ⟨10, 0⟩ 60 = true := by
    norm_num [positionsOverlap]
  have hsolve : solve (encodeSATClauses [[⟨0, 0⟩, ⟨100, 0⟩], [⟨10, 0⟩]] [] [])
      (encodeNumVars [[⟨0, 0⟩, ⟨100, 0⟩], [⟨10, 0⟩]] [])
      = some [none, some false, some true, some true] := by
    rw [hform, hnum]
    decide
  refine ⟨hov, hsolve, ?_⟩
  exact (encode_mutual_exclusion _ _ _ _ rfl hsolve).1 0 1 0 0 (by decide)
    (by decide) (by decide) (by decide) hov

/-- C8.  No label-over-circle constraint is emitted: the formula built
by `encodeSAT` depends on the circles only through their number and
their names (never through the geometry that `labelOverlapsCircle`
reads), so the label-vs-circle block adds no clauses; concretely, a
label candidate lying over its own circle — flagged by
`labelOverlapsCircle` — yields only the exactly-one clause `[[1]]`, and
the solver happily selects that candidate. -/
theorem encode_no_label_circle_constraint :
    (∀ (oc : List (List Pos)) (circles circles' : List Circle)
        (lc : List (List Pos)),
      circles.map Circle.name = circles'.map Circle.name →
      encodeSATClauses oc circles lc = encodeSATClauses oc circles' lc)
    ∧ (labelOverlapsCircle ⟨500, 400⟩ "A" ⟨"A", 500, 400, 100⟩ = true
      ∧ encodeSATClauses [] [⟨"A", 500, 400, 100⟩] [[⟨500, 400⟩]] = [[1]]
      ∧ solve (encodeSATClauses [] [⟨"A", 500, 400, 100⟩] [[⟨500, 400⟩]])
          (encodeNumVars [] [[⟨500, 400⟩]]) = some [none, some true]) := by
  constructor
  · intro oc circles circles' lc hname
    have hlen : circles.length = circles'.length := by
      have := congrArg List.length hname
      simpa using this
    have hnames : ∀ i, (circles.getD i ⟨"", 0, 0, 0⟩).name
        = (circles'.getD i ⟨"", 0, 0, 0⟩).name := by
      intro i
      by_cases hi : i < circles.length
      · have h1 : (circles.map Circle.name)[i]? = (circles'.map Circle.name)[i]? := by
          rw [hname]
        rw [List.getElem?_map, List.getElem?_map] at h1
        rw [List.getD_eq_getElem?_getD, List.getD_eq_getElem?_getD]
        cases hg : circles[i]? with
        | none =>
          rw [List.getElem?_eq_none_iff] at hg
          omega
        | some cc =>
          cases hg' : circles'[i]? with
          | none =>
            rw [List.getElem?_eq_none_iff] at hg'
            omega
          | some cc' =>
            rw [hg, hg'] at h1
            simp at h1
            simp [h1]
      · rw [List.getD_eq_getElem?_getD, List.getD_eq_getElem?_getD,
          List.getElem?_eq_none (by omega), List.getElem?_eq_none (by omega)]
    unfold encodeSATClauses encodeLabelOverlap
    simp only [hlen, hnames]
  · have hform : encodeSATClauses [] [⟨"A", 500, 400, 100⟩] [[⟨500, 400⟩]]
        = [[1]] := by
      norm_num [encodeSATClauses, encodeOrgEO, encodeLabelEO, encodeOrgOverlap,
        encodeLabelOverlap, exactlyOne, atMostOne, orgVarsClause, labelVarsClause,
        orgVar, labelVar, candOffset, candTotal, positionsOverlap, labelsOverlap,
        getTextBounds, List.range_succ, List.filterMap_cons, List.isEmpty_cons,
        List.cons_ne_nil]
    have hnum : encodeNumVars [] [[(⟨500, 400⟩ : Pos)]] = 1 := by
      norm_num [encodeNumVars, candTotal]
    refine ⟨?_, hform, ?_⟩
    · norm_num [labelOverlapsCircle, getTextBounds,
        show ("A" : String).length = 1 from rfl]
    · rw [hform, hnum]
      decide

theorem encode_no_label_circle_constraint_witness :
    ([⟨"A", 0, 0, 5⟩] : List Circle).map Circle.name
        = ([⟨"A", 9, 9, 1⟩] : List Circle).map Circle.name
      ∧ encodeSATClauses [] [⟨"A", 0, 0, 5⟩] [[⟨1, 2⟩]]
        = encodeSATClauses [] [⟨"A", 9, 9, 1⟩] [[⟨1, 2⟩]] :=
  ⟨rfl, encode_no_label_circle_constraint.1 [] [⟨"A", 0, 0, 5⟩] [⟨"A", 9, 9, 1⟩]
    [[⟨1, 2⟩]] rfl⟩

/-- C9.  Unsatisfiable triggers the fallback, not the decoder:
`optimize` returns the fallback collaborator's layout exactly when the
encoded formula has no model (equivalently, when `solve` returns null),
and otherwise returns `extractSolution` of the returned assignment. -/
theorem optimize_fallback_iff_unsat (oc : List (List Pos)) (circles : List Circle)
    (lc : List (List Pos)) (fb : Layout) (hlen : circles.length = lc.length) :
    (optimize oc circles lc fb = .fromFallback fb
      ↔ ¬ satisfiable (encodeSATClauses oc circles lc) (encodeNumVars oc lc))
    ∧ (∀ a, solve (encodeSATClauses oc circles lc) (encodeNumVars oc lc) = some a →
        optimize oc circles lc fb
          = .fromExtract (extractSolution a oc lc circles.length)) := by
  have hin := encode_litsInRange oc circles lc hlen
  constructor
  · constructor
    · intro h hsat
      cases hs : solve (encodeSATClauses oc circles lc) (encodeNumVars oc lc) with
      | none => exact solve_ne_none_of_model _ _ hin hsat hs
      | some a =>
        unfold optimize at h
        rw [hs] at h
        exact OptimizeResult.noConfusion h
    · intro hns
      cases hs : solve (encodeSATClauses oc circles lc) (encodeNumVars oc lc) with
      | none =>
        unfold optimize
        rw [hs]
      | some a => exact absurd (satisfiable_of_solve_some _ _ hin a hs) hns
  · intro a hs
    unfold optimize
    rw [hs]

theorem optimize_fallback_iff_unsat_witness :
    optimize [[⟨0, 0⟩], [⟨1, 0⟩]] [] [] ⟨[], []⟩
        = .fromFallback ⟨[], []⟩
      ∧ ¬ satisfiable (encodeSATClauses [[⟨0, 0⟩], [⟨1, 0⟩]] [] [])
          (encodeNumVars [[⟨0, 0⟩], [⟨1, 0⟩]] []) := by
  have hform : encodeSATClauses [[⟨0, 0⟩], [⟨1, 0⟩]] [] []
      = [[1], [2], [-1, -2]] := by
    norm_num [encodeSATClauses, encodeOrgEO, encodeLabelEO, encodeOrgOverlap,
      encodeLabelOverlap, exactlyOne, atMostOne, orgVarsClause, labelVarsClause,
      orgVar, labelVar, candOffset, candTotal, positionsOverlap, labelsOverlap,
      getTextBounds, List.range_succ, List.filterMap_cons, List.isEmpty_cons,
      List.cons_ne_nil]
  have hnum : encodeNumVars [[(⟨0, 0⟩ : Pos)], [⟨1, 0⟩]] [] = 2 := by
    norm_num [encodeNumVars, candTotal]
  have hopt : optimize [[⟨0, 0⟩], [⟨1, 0⟩]] [] [] ⟨[], []⟩
      = .fromFallback ⟨[], []⟩ := by
    unfold optimize
    rw [hform, hnum, show solve [[1], [2], [-1, -2]] 2 = none from by decide]
  exact ⟨hopt,
    ((optimize_fallback_iff_unsat [[⟨0, 0⟩], [⟨1, 0⟩]] [] [] ⟨[], []⟩ rfl).1).mp hopt⟩

end SatLayout
